import Mathlib

/-!
Verification of the antique-catalogue backend core against its specification.

This file gives a shallow embedding of the two core components of the
repository:

* `backend/app/core/security.py` — password hashing/verification and the
  hand-rolled JWT token service (`hash_password`, `verify_password`,
  `_build_token_payload`, `_jwt_encode`, `create_access_token`,
  `create_refresh_token`, `decode_token`);
* `backend/app/services/metadata.py` — the dynamic metadata validator
  (`validate_metadata`);
* `backend/app/api/items.py` — the query-filter parser
  (`_parse_filter_value` and the per-token body of `_apply_item_filters`).

Modelling conventions:

* Python byte strings are `List Nat` with every element `< 256`.
* Python `str` is Lean `String` (well-formed Unicode; Python strings with
  lone surrogates are outside the model).
* The cryptographic primitives from the Python standard library
  (`hmac.new(..., hashlib.sha256)` and `hashlib.pbkdf2_hmac`) are external
  collaborators; they are universally quantified function parameters, so
  every theorem holds for any deterministic implementation of them.
* `json.dumps(..., separators=(",", ":"))` (with its default
  `ensure_ascii=True`) and `json.loads` are modelled concretely by a
  verified compact JSON serializer/parser below.  Model restrictions:
  JSON numbers are integers (no floats in any token payload produced by
  the code), and strings with lone surrogates are not representable.
* `date.fromisoformat` / `datetime.fromisoformat` validity is an abstract
  Boolean parameter of the metadata validator: the validator only ever
  asks whether parsing succeeds, never uses the parsed value.
* Exceptions are modelled by `Except`; the distinct Python exception
  classes that can escape `decode_token` are the constructors of `PyErr`.
-/
/-! ### Python `str.strip()` (ASCII whitespace; the unicode extras that
Python also strips never occur in the values the claims touch) -/
def isPySpace (c : Char) : Bool :=
  c = ' ' || c = '\t' || c = '\n' || c = '\r' || c = '\x0b' || c = '\x0c'

def pyStripChars (l : List Char) : List Char :=
  ((l.dropWhile isPySpace).reverse.dropWhile isPySpace).reverse

def pyStrip (s : String) : String :=
  String.mk (pyStripChars s.data)

/-! ### Python `str.split(sep)` and `str.split(sep, maxsplit)` -/
def splitChars (sep : Char) : List Char → List (List Char)
  | [] => [[]]
  | c :: cs =>
    match splitChars sep cs with
    | [] => [[c]]
    | h :: t => if c = sep then [] :: h :: t else (c :: h) :: t

/-- `str.split(sep, maxsplit)`: at most `n` splits, remainder kept whole. -/
def splitCharsN (sep : Char) : Nat → List Char → List (List Char)
  | 0, cs => [cs]
  | n + 1, cs =>
    let pre := cs.takeWhile (· ≠ sep)
    match cs.dropWhile (· ≠ sep) with
    | [] => [pre]
    | _ :: tail => pre :: splitCharsN sep n tail

/-! ### Python `dict` as an association list with unique keys.
`dictInsert` models `d[k] = v` (replace in place, else append);
`pyDictOf` models `dict(pairs)`; `pyDictUpdate` models `d.update(u)`. -/
def dictInsert {α : Type} (d : List (String × α)) (k : String) (v : α) :
    List (String × α) :=
  if d.any (fun e => e.1 = k) then
    d.map (fun e => if e.1 = k then (e.1, v) else e)
  else d ++ [(k, v)]

def pyDictOf {α : Type} (l : List (String × α)) : List (String × α) :=
  l.foldl (fun d e => dictInsert d e.1 e.2) []

def pyDictUpdate {α : Type} (d u : List (String × α)) : List (String × α) :=
  u.foldl (fun d e => dictInsert d e.1 e.2) d

/-! ### Python `int(string)`: optional surrounding whitespace, optional
sign, decimal digits.  (Underscore separators are outside the model.) -/
def digitsVal (ds : List Char) : Nat :=
  ds.foldl (fun a c => a * 10 + (c.toNat - 48)) 0

def pyIntParse (s : String) : Option Int :=
  match pyStripChars s.data with
  | [] => none
  | '-' :: ds => if ds ≠ [] ∧ ds.all Char.isDigit then some (-(digitsVal ds : Int)) else none
  | '+' :: ds => if ds ≠ [] ∧ ds.all Char.isDigit then some (digitsVal ds : Int) else none
  | ds => if ds.all Char.isDigit then some (digitsVal ds : Int) else none

/-! ### Decimal printing of integers (`json.dumps` of an int, f-strings) -/
def natCharsAux : Nat → Nat → List Char
  | 0, _ => []
  | f + 1, n =>
    if n < 10 then [Char.ofNat (48 + n)]
    else natCharsAux f (n / 10) ++ [Char.ofNat (48 + n % 10)]

def natChars (n : Nat) : List Char := natCharsAux (n + 1) n

def intChars (i : Int) : List Char :=
  if i < 0 then '-' :: natChars i.natAbs else natChars i.toNat

/-! ### base64url (`base64.urlsafe_b64encode` / `urlsafe_b64decode`),
as used by `_b64url_encode` / `_b64url_decode` in `security.py`. -/
def b64Alphabet : List Char :=
  ['A','B','C','D','E','F','G','H','I','J','K','L','M','N','O','P',
   'Q','R','S','T','U','V','W','X','Y','Z',
   'a','b','c','d','e','f','g','h','i','j','k','l','m','n','o','p',
   'q','r','s','t','u','v','w','x','y','z',
   '0','1','2','3','4','5','6','7','8','9','-','_']

def b64Char (n : Nat) : Char := b64Alphabet.getD n 'A'

def b64ValAux (c : Char) : List Char → Nat → Option Nat
  | [], _ => none
  | a :: as, i => if a = c then some i else b64ValAux c as (i + 1)

/-- Index of `c` in the urlsafe alphabet (6-bit value), `none` for
non-alphabet characters. -/
def b64Val (c : Char) : Option Nat := b64ValAux c b64Alphabet 0

/-- `_b64url_encode` minus the stripped padding: 3 input bytes become 4
alphabet characters; a 1- or 2-byte tail becomes 2 or 3 characters. -/
def b64EncodeChars : List Nat → List Char
  | [] => []
  | [b1] => [b64Char (b1 / 4), b64Char (b1 % 4 * 16)]
  | [b1, b2] => [b64Char (b1 / 4), b64Char (b1 % 4 * 16 + b2 / 16), b64Char (b2 % 16 * 4)]
  | b1 :: b2 :: b3 :: rest =>
    b64Char (b1 / 4) :: b64Char (b1 % 4 * 16 + b2 / 16) ::
      b64Char (b2 % 16 * 4 + b3 / 64) :: b64Char (b3 % 64) :: b64EncodeChars rest

/-- Reassemble bytes from 6-bit groups (4 groups → 3 bytes; a trailing
group of 2 or 3 → 1 or 2 bytes, low bits dropped as CPython does). -/
def b64DecodeQuads : List Nat → List Nat
  | a :: b :: c :: d :: rest =>
    (a * 4 + b / 16) :: (b % 16 * 16 + c / 4) :: (c % 4 * 64 + d) :: b64DecodeQuads rest
  | [a, b] => [a * 4 + b / 16]
  | [a, b, c] => [a * 4 + b / 16, b % 16 * 16 + c / 4]
  | _ => []

/-- `base64.urlsafe_b64decode` on an input that the caller has padded to a
multiple of 4: non-alphabet characters are discarded; a data-character
count of 1 mod 4 is a `binascii.Error`; a count of 2 or 3 mod 4 without
padding characters is a `binascii.Error` (incorrect padding). -/
def b64DecodePadded (cs : List Char) : Except Unit (List Nat) :=
  let data := cs.filterMap b64Val
  let hasPad := cs.contains '='
  if data.length % 4 = 1 then .error ()
  else if data.length % 4 = 0 then .ok (b64DecodeQuads data)
  else if hasPad then .ok (b64DecodeQuads data) else .error ()

/-- `_b64url_decode`: re-add the stripped padding, then decode. -/
def b64urlDecode (s : String) : Except Unit (List Nat) :=
  b64DecodePadded (s.data ++ List.replicate ((4 - s.length % 4) % 4) '=')

def b64UrlEncode (bs : List Nat) : String := String.mk (b64EncodeChars bs)

/-! ### base64url round-trip -/
/-- The 6-bit groups that `b64EncodeChars` encodes, in order. -/
def b64Groups : List Nat → List Nat
  | [] => []
  | [b1] => [b1 / 4, b1 % 4 * 16]
  | [b1, b2] => [b1 / 4, b1 % 4 * 16 + b2 / 16, b2 % 16 * 4]
  | b1 :: b2 :: b3 :: rest =>
    b1 / 4 :: (b1 % 4 * 16 + b2 / 16) :: (b2 % 16 * 4 + b3 / 64) :: b3 % 64 :: b64Groups rest

/-! ### JSON values.

Model of the Python values that `json.dumps` / `json.loads` exchange in
`security.py`.  Numbers are integers (every numeric claim the token code
writes — `iat`, `exp` — is produced through `int(...)`); floats and
strings containing lone surrogates are outside the model. -/
inductive Json where
  | null
  | bool (b : Bool)
  | num (n : Int)
  | str (s : String)
  | arr (elems : List Json)
  | obj (entries : List (String × Json))

/-! ### `json.dumps(value, separators=(",", ":"))` with `ensure_ascii=True` -/
def hexDigitChar (n : Nat) : Char :=
  if n < 10 then Char.ofNat (48 + n) else Char.ofNat (87 + n)

def hex4 (n : Nat) : List Char :=
  [hexDigitChar (n / 4096 % 16), hexDigitChar (n / 256 % 16),
   hexDigitChar (n / 16 % 16), hexDigitChar (n % 16)]

/-- CPython escapes `"` and `\`, the five short-escape control characters,
other chars outside `0x20..0x7e` as `\uXXXX` (with a surrogate pair for
astral code points). -/
def escapeChar (c : Char) : List Char :=
  if c = '"' then ['\\', '"']
  else if c = '\\' then ['\\', '\\']
  else if c = '\x08' then ['\\', 'b']
  else if c = '\t' then ['\\', 't']
  else if c = '\n' then ['\\', 'n']
  else if c = '\x0c' then ['\\', 'f']
  else if c = '\r' then ['\\', 'r']
  else if 0x20 ≤ c.toNat ∧ c.toNat ≤ 0x7e then [c]
  else if c.toNat < 0x10000 then '\\' :: 'u' :: hex4 c.toNat
  else ('\\' :: 'u' :: hex4 (0xd800 + (c.toNat - 0x10000) / 0x400)) ++
       ('\\' :: 'u' :: hex4 (0xdc00 + (c.toNat - 0x10000) % 0x400))

def dumpsString (s : String) : List Char :=
  '"' :: (s.data.flatMap escapeChar ++ ['"'])

mutual
def dumpsChars : Json → List Char
  | .null => ("null").data
  | .bool true => ("true").data
  | .bool false => ("false").data
  | .num i => intChars i
  | .str s => dumpsString s
  | .arr [] => ['[', ']']
  | .arr (x :: xs) => '[' :: dumpsItems (x :: xs)
  | .obj [] => ['\x7b', '\x7d']
  | .obj (e :: es) => '\x7b' :: dumpsEntries (e :: es)

def dumpsItems : List Json → List Char
  | [] => [']']
  | [x] => dumpsChars x ++ [']']
  | x :: y :: ys => dumpsChars x ++ ',' :: dumpsItems (y :: ys)

def dumpsEntries : List (String × Json) → List Char
  | [] => ['\x7d']
  | [(k, v)] => dumpsString k ++ ':' :: (dumpsChars v ++ ['\x7d'])
  | (k, v) :: e :: es => dumpsString k ++ ':' :: (dumpsChars v ++ ',' :: dumpsEntries (e :: es))
end

def jsonDumps (j : Json) : String := String.mk (dumpsChars j)

/-! ### `json.loads` (recursive-descent, fuelled; the fuel argument is an
upper bound on nesting work and `length + 1` always suffices for inputs
this development feeds the parser) -/
def isJsonWs (c : Char) : Bool :=
  c = ' ' || c = '\t' || c = '\n' || c = '\r'

def skipWs (cs : List Char) : List Char := cs.dropWhile isJsonWs

def hexVal (c : Char) : Option Nat :=
  if '0' ≤ c ∧ c ≤ '9' then some (c.toNat - 48)
  else if 'a' ≤ c ∧ c ≤ 'f' then some (c.toNat - 87)
  else if 'A' ≤ c ∧ c ≤ 'F' then some (c.toNat - 55)
  else none

def hexVal4 (a b c d : Char) : Option Nat :=
  match hexVal a, hexVal b, hexVal c, hexVal d with
  | some x, some y, some z, some w => some (x * 4096 + y * 256 + z * 16 + w)
  | _, _, _, _ => none

/-- Four hex digits of a `\uXXXX` escape. -/
def parseHex4 : List Char → Option (Nat × List Char)
  | a :: b :: c :: d :: r =>
    match hexVal4 a b c d with
    | none => none
    | some n => some (n, r)
  | _ => none

/-- One escape sequence after a backslash.  Python permits lone
surrogate escapes (they build degenerate `str` values); such strings are
not representable here and the model rejects them, which no code path of
the repository can reach. -/
def parseEscape : List Char → Option (Char × List Char)
  | [] => none
  | e :: r =>
    if e = '"' then some ('"', r)
    else if e = '\\' then some ('\\', r)
    else if e = '/' then some ('/', r)
    else if e = 'b' then some ('\x08', r)
    else if e = 'f' then some ('\x0c', r)
    else if e = 'n' then some ('\n', r)
    else if e = 'r' then some ('\r', r)
    else if e = 't' then some ('\t', r)
    else if e = 'u' then
      match parseHex4 r with
      | none => none
      | some (n, r2) =>
        if 0xd800 ≤ n ∧ n < 0xdc00 then
          match r2 with
          | c1 :: c2 :: rr =>
            if c1 = '\\' ∧ c2 = 'u' then
              match parseHex4 rr with
              | none => none
              | some (m, r3) =>
                if 0xdc00 ≤ m ∧ m < 0xe000 then
                  some (Char.ofNat (0x10000 + (n - 0xd800) * 0x400 + (m - 0xdc00)), r3)
                else none
            else none
          | _ => none
        else if 0xdc00 ≤ n ∧ n < 0xe000 then none
        else some (Char.ofNat n, r2)
    else none

/-- Body of a JSON string after the opening quote, fuelled (one unit of
fuel per decoded character; the wrapper always supplies enough). -/
def parseStringBodyF : Nat → List Char → Option (List Char × List Char)
  | 0, _ => none
  | f + 1, cs =>
    match cs with
    | [] => none
    | c :: rest =>
      if c = '"' then some ([], rest)
      else if c = '\\' then
        match parseEscape rest with
        | none => none
        | some (ch, r) => (parseStringBodyF f r).map (fun p => (ch :: p.1, p.2))
      else if c.toNat < 0x20 then none
      else (parseStringBodyF f rest).map (fun p => (c :: p.1, p.2))

def parseStringBody (cs : List Char) : Option (List Char × List Char) :=
  parseStringBodyF (cs.length + 1) cs

/-- Integer literal: digits after an optional sign already consumed by the
caller.  A following `.`/`e`/`E` would make a float, which is outside the
model. -/
def parseNatPart (cs : List Char) : Option (Nat × List Char) :=
  let ds := cs.takeWhile Char.isDigit
  let rest := cs.dropWhile Char.isDigit
  if ds = [] then none
  else
    match rest with
    | [] => some (digitsVal ds, [])
    | c :: _ =>
      if c = '.' ∨ c = 'e' ∨ c = 'E' then none else some (digitsVal ds, rest)

/-- Consume an expected literal character sequence. -/
def expectChars : List Char → List Char → Option (List Char)
  | [], cs => some cs
  | e :: es, cs =>
    match cs with
    | [] => none
    | c :: r => if c = e then expectChars es r else none

mutual
def parseVal : Nat → List Char → Option (Json × List Char)
  | 0, _ => none
  | f + 1, cs =>
    match skipWs cs with
    | [] => none
    | c :: rest =>
      if c = 'n' then (expectChars ['u', 'l', 'l'] rest).map (fun r => (Json.null, r))
      else if c = 't' then (expectChars ['r', 'u', 'e'] rest).map (fun r => (Json.bool true, r))
      else if c = 'f' then (expectChars ['a', 'l', 's', 'e'] rest).map (fun r => (Json.bool false, r))
      else if c = '"' then (parseStringBody rest).map (fun p => (Json.str (String.mk p.1), p.2))
      else if c = '[' then parseArrBody f (skipWs rest)
      else if c = '\x7b' then parseObjBody f (skipWs rest)
      else if c = '-' then (parseNatPart rest).map (fun p => (.num (-(p.1 : Int)), p.2))
      else (parseNatPart (c :: rest)).map (fun p => (.num (p.1 : Int), p.2))

def parseArrBody : Nat → List Char → Option (Json × List Char)
  | 0, _ => none
  | f + 1, cs =>
    match cs with
    | [] => none
    | c2 :: r2 =>
      if c2 = ']' then some (.arr [], r2)
      else (parseItems f (c2 :: r2)).map (fun p => (.arr p.1, p.2))

def parseObjBody : Nat → List Char → Option (Json × List Char)
  | 0, _ => none
  | f + 1, cs =>
    match cs with
    | [] => none
    | c2 :: r2 =>
      if c2 = '\x7d' then some (.obj [], r2)
      else (parseEntries f (c2 :: r2)).map (fun p => (.obj p.1, p.2))

def parseItems : Nat → List Char → Option (List Json × List Char)
  | 0, _ => none
  | f + 1, cs =>
    match parseVal f cs with
    | none => none
    | some (v, r) =>
      match skipWs r with
      | [] => none
      | c :: r2 =>
        if c = ',' then (parseItems f r2).map (fun p => (v :: p.1, p.2))
        else if c = ']' then some ([v], r2)
        else none

def parseEntries : Nat → List Char → Option (List (String × Json) × List Char)
  | 0, _ => none
  | f + 1, cs =>
    match skipWs cs with
    | [] => none
    | c :: rest =>
      if c = '"' then
        match parseStringBody rest with
        | none => none
        | some (k, r) =>
          match skipWs r with
          | [] => none
          | c2 :: r2 =>
            if c2 = ':' then
              match parseVal f r2 with
              | none => none
              | some (v, r3) =>
                match skipWs r3 with
                | [] => none
                | c3 :: r4 =>
                  if c3 = ',' then
                    (parseEntries f r4).map (fun p => ((String.mk k, v) :: p.1, p.2))
                  else if c3 = '\x7d' then some ([(String.mk k, v)], r4)
                  else none
            else none
      else none
end

/-- `json.loads`: parse one value, then require only whitespace to the
end.  (Python collapses duplicate object keys through `dict`; the model
returns the entry list as parsed — the token code only ever round-trips
objects with distinct keys.) -/
def jsonLoads (s : String) : Option Json :=
  match parseVal (2 * s.length + 1) s.data with
  | some (v, rest) => if skipWs rest = [] then some v else none
  | none => none

/-- Characters which may legally follow a serialized value inside a larger
serialized document (or the end of input). -/
def FollowOk : List Char → Prop
  | [] => True
  | c :: _ => c = ',' ∨ c = ']' ∨ c = '\x7d'

/-! ### Parser round-trip: fuel measures and the master theorem -/
mutual
def needV : Json → Nat
  | .null => 1
  | .bool _ => 1
  | .num _ => 1
  | .str _ => 1
  | .arr xs => 2 + needL xs
  | .obj kvs => 2 + needE kvs

def needL : List Json → Nat
  | [] => 1
  | x :: xs => 1 + needV x + needL xs

def needE : List (String × Json) → Nat
  | [] => 1
  | (_, v) :: es => 1 + needV v + needE es
end

/-! ### Byte layer: `str.encode` / UTF-8 decode.

`utf8Encode` models `str.encode("utf-8")`; `asciiEncode` models
`str.encode("ascii")` (raising `UnicodeEncodeError` on non-ASCII input);
`asciiDecodeBytes` models the UTF-8 decoding `json.loads` performs on a
`bytes` argument, restricted to the ASCII plane — every byte string this
development decodes is the ASCII output of `json.dumps(ensure_ascii)`,
and on any other input both the real decoder and this model funnel into
the same caught-`ValueError` path of `decode_token`. -/
def utf8EncodeChar (c : Char) : List Nat :=
  let n := c.toNat
  if n < 0x80 then [n]
  else if n < 0x800 then [0xc0 + n / 64, 0x80 + n % 64]
  else if n < 0x10000 then [0xe0 + n / 4096, 0x80 + n / 64 % 64, 0x80 + n % 64]
  else [0xf0 + n / 0x40000, 0x80 + n / 4096 % 64, 0x80 + n / 64 % 64, 0x80 + n % 64]

def utf8Encode (s : String) : List Nat := s.data.flatMap utf8EncodeChar

def asciiEncode (s : String) : Option (List Nat) :=
  if s.data.all (fun c => c.toNat < 128) then some (s.data.map Char.toNat) else none

def asciiDecodeBytes (bs : List Nat) : Option (List Char) :=
  if bs.all (· < 128) then some (bs.map Char.ofNat) else none

/-! ### `app/core/settings.py` (the fields the Token Service reads) -/
structure Settings where
  jwt_secret : String
  jwt_algorithm : String
  jwt_access_token_expire_minutes : Int

/-- The distinct Python exception classes that can escape the functions of
`security.py`.  `TokenError` is the class the module itself defines (a
`ValueError` subclass); the others are stdlib exceptions that the code
does not catch. -/
inductive PyErr where
  | tokenError (msg : String)
  | binasciiError
  | unicodeEncodeError
  | attributeError
  | valueError
  | typeError
deriving DecidableEq

/-! ### Password hashing (`hash_password` / `verify_password`).

`hashlib.pbkdf2_hmac("sha256", password, salt, iterations)` is an external
primitive: it appears as a function parameter `pbkdf2` (password bytes →
salt → iterations → derived key).  `os.urandom` is external randomness:
the salt is a parameter of `hash_password`.  `hmac.compare_digest` is
constant-time equality — modelled as equality.  (On a stored hash with a
negative iteration count Python raises inside `pbkdf2_hmac`; the model
treats `pbkdf2` as total, a divergence no claim touches.) -/
def pwdAlgorithmTag : String := "pbkdf2_sha256"

def pwdIterations : Nat := 100000

def hash_password (pbkdf2 : List Nat → List Nat → Int → List Nat)
    (password : String) (salt : List Nat) : String :=
  let digest := pbkdf2 (utf8Encode password) salt (pwdIterations : Int)
  pwdAlgorithmTag ++ "$" ++ String.mk (natChars pwdIterations) ++ "$" ++
    b64UrlEncode salt ++ "$" ++ b64UrlEncode digest

def verify_password (pbkdf2 : List Nat → List Nat → Int → List Nat)
    (plain_password hashed_password : String) : Bool :=
  match splitCharsN '$' 3 hashed_password.data with
  | [algorithm, iterations_str, salt_b64, digest_b64] =>
    if String.mk algorithm ≠ pwdAlgorithmTag then false
    else
      match pyIntParse (String.mk iterations_str), b64urlDecode (String.mk salt_b64),
          b64urlDecode (String.mk digest_b64) with
      | some iterations, .ok salt, .ok expected =>
        pbkdf2 (utf8Encode plain_password) salt iterations == expected
      | _, _, _ => false
  | _ => false

/-! ### Token creation (`_build_token_payload`, `_jwt_encode`,
`create_access_token`, `create_refresh_token`).

`hmac.new(secret, msg, hashlib.sha256).digest()` is the external parameter
`hmacSha256` (key bytes → message bytes → digest bytes).  Time is the
integer Unix timestamp `now` (`int(datetime.now(timezone.utc).timestamp())`;
sub-second fractions do not survive the `int(...)` conversions the code
performs).  A `timedelta` is its whole number of seconds. -/
def _build_token_payload (st : Settings) (now : Int) (subject token_type : String)
    (expires_delta : Option Int) (additional_claims : List (String × Json)) :
    List (String × Json) :=
  let delta :=
    match expires_delta with
    | none => st.jwt_access_token_expire_minutes * 60
    | some d => d
  let expire := now + delta
  let payload := [("sub", Json.str subject), ("type", Json.str token_type),
    ("iat", Json.num now), ("exp", Json.num expire)]
  pyDictUpdate payload additional_claims

def _jwt_encode (st : Settings) (hmacSha256 : List Nat → List Nat → List Nat)
    (payload : List (String × Json)) : Except PyErr String :=
  if st.jwt_algorithm ≠ "HS256" then .error (.tokenError "Unsupported JWT algorithm")
  else
    let header := Json.obj [("alg", Json.str st.jwt_algorithm), ("typ", Json.str "JWT")]
    let header_b64 := b64UrlEncode (utf8Encode (jsonDumps header))
    let payload_b64 := b64UrlEncode (utf8Encode (jsonDumps (Json.obj payload)))
    match asciiEncode (header_b64 ++ "." ++ payload_b64) with
    | none => .error .unicodeEncodeError
    | some signing_input =>
      let signature := hmacSha256 (utf8Encode st.jwt_secret) signing_input
      .ok (header_b64 ++ "." ++ payload_b64 ++ "." ++ b64UrlEncode signature)

def create_access_token (st : Settings) (hmacSha256 : List Nat → List Nat → List Nat)
    (now : Int) (subject : String) (expires_delta : Option Int)
    (additional_claims : List (String × Json)) : Except PyErr String :=
  _jwt_encode st hmacSha256
    (_build_token_payload st now subject "access" expires_delta additional_claims)

def create_refresh_token (st : Settings) (hmacSha256 : List Nat → List Nat → List Nat)
    (now : Int) (subject : String) (expires_delta : Int)
    (additional_claims : List (String × Json)) : Except PyErr String :=
  _jwt_encode st hmacSha256
    (_build_token_payload st now subject "refresh" (some expires_delta) additional_claims)

/-! ### Token decoding (`decode_token`) -/
/-- `dict.get(k)` on a decoded JSON object: a JSON `null` decodes to
Python `None`, indistinguishable from an absent key. -/
def pyGet (entries : List (String × Json)) (k : String) : Option Json :=
  match List.lookup k entries with
  | some Json.null => none
  | v => v

/-- Python `==` between a decoded JSON value (or `None`) and a `str`. -/
def jsonEqStr (v : Option Json) (s : String) : Bool :=
  match v with
  | some (Json.str a) => a == s
  | _ => false

/-- Python `int(x)` on a decoded JSON value. -/
def pyInt : Json → Except PyErr Int
  | .num n => .ok n
  | .bool b => .ok (if b then 1 else 0)
  | .str s =>
    match pyIntParse s with
    | some n => .ok n
    | none => .error .valueError
  | .null => .error .typeError
  | .arr _ => .error .typeError
  | .obj _ => .error .typeError

/-- One base64url segment through the `try` of `decode_token`:
`json.loads(_b64url_decode(seg))`; any failure is caught and becomes the
uniform `TokenError`. -/
def decodeSegmentJson (s : String) : Option Json :=
  match b64urlDecode s with
  | .error _ => none
  | .ok bs =>
    match asciiDecodeBytes bs with
    | none => none
    | some cs => jsonLoads (String.mk cs)

def decode_token (st : Settings) (hmacSha256 : List Nat → List Nat → List Nat)
    (now : Int) (token : String) : Except PyErr (List (String × Json)) :=
  match splitChars '.' token.data with
  | [header_b64, payload_b64, signature_b64] =>
    match asciiEncode (String.mk header_b64 ++ "." ++ String.mk payload_b64) with
    | none => .error .unicodeEncodeError
    | some signing_input =>
      let expected_signature := hmacSha256 (utf8Encode st.jwt_secret) signing_input
      match b64urlDecode (String.mk signature_b64) with
      | .error _ => .error .binasciiError
      | .ok signature =>
        if signature = expected_signature then
          match decodeSegmentJson (String.mk header_b64),
              decodeSegmentJson (String.mk payload_b64) with
          | some header, some payload =>
            match header with
            | Json.obj hEntries =>
              if jsonEqStr (pyGet hEntries "alg") st.jwt_algorithm then
                match payload with
                | Json.obj pEntries =>
                  match pyGet pEntries "exp" with
                  | none => .ok pEntries
                  | some expv =>
                    match pyInt expv with
                    | .error e => .error e
                    | .ok e =>
                      if now ≥ e then .error (.tokenError "Token expired")
                      else .ok pEntries
                | _ => .error .attributeError
              else .error (.tokenError "Invalid token")
            | _ => .error .attributeError
          | _, _ => .error (.tokenError "Invalid token")
        else .error (.tokenError "Invalid token")
  | _ => .error (.tokenError "Invalid token")

/-! ### `app/services/metadata.py` and the filter helpers of `app/api/items.py`.

A metadata document is a JSON object; its values are `MValue`.  A Python
`float` is carried opaquely (`floatv`): the validator only ever tests its
type, never its value.  `bool` is a separate constructor, so the code's
explicit `isinstance(value, bool)` exclusion in the number branch is the
structural distinction between `boolv` and `intv`/`floatv`.
`date.fromisoformat` / `datetime.fromisoformat` are stdlib externals: the
parameters `dateOk` and `tsOk` tell whether they succeed on a string.
The `options` JSON column is modelled at the type the application's own
schema validators establish (`_normalize_options` in `app/schemas`): a
mapping whose values are lists of strings, so the code's
`isinstance(raw_options, list)` test corresponds to the `options` key
being present. -/
inductive MValue where
  | null
  | boolv (b : Bool)
  | intv (n : Int)
  | floatv (f : Int)
  | strv (s : String)
  | listv (l : List MValue)
  | objv (entries : List (String × MValue))

structure FieldDefinition where
  name : String
  field_type : String
  is_required : Bool
  options : Option (List (String × List String))

structure MetadataValidationError where
  message : String
  errors : List (String × String)

def pyLower (s : String) : String := String.mk (s.data.map Char.toLower)

/-- One field of the loop body of `validate_metadata` (lines 41-147): the
value drawn from the document (`none` when the key is absent) to either a
field-level error message, no normalized entry, or a normalized value. -/
def checkFieldValue (dateOk tsOk : String → Bool) (field : FieldDefinition) :
    Option MValue → Except String (Option MValue)
  | none => if field.is_required then .error "Field is required" else .ok none
  | some MValue.null => if field.is_required then .error "Field is required" else .ok none
  | some v =>
    if field.field_type = "text" then
      match v with
      | .strv s =>
        let trimmed := pyStrip s
        if field.is_required ∧ trimmed = "" then .error "Field is required"
        else .ok (some (.strv trimmed))
      | _ => .error "Value must be a string"
    else if field.field_type = "number" then
      match v with
      | .intv n => .ok (some (.intv n))
      | .floatv f => .ok (some (.floatv f))
      | _ => .error "Value must be a number"
    else if field.field_type = "date" then
      match v with
      | .strv s =>
        let trimmed := pyStrip s
        if dateOk trimmed then .ok (some (.strv trimmed))
        else .error "Value must be a date (YYYY-MM-DD)"
      | _ => .error "Value must be a date (YYYY-MM-DD)"
    else if field.field_type = "timestamp" then
      match v with
      | .strv s =>
        let trimmed := pyStrip s
        if ¬ ('T' ∈ trimmed.data ∨ ' ' ∈ trimmed.data) then
          .error "Value must be a timestamp (ISO 8601)"
        else
          let adjusted := if trimmed.data.getLast? = some 'Z' then
              String.mk trimmed.data.dropLast ++ "+00:00" else trimmed
          if tsOk adjusted then .ok (some (.strv trimmed))
          else .error "Value must be a timestamp (ISO 8601)"
      | _ => .error "Value must be a timestamp (ISO 8601)"
    else if field.field_type = "checkbox" then
      match v with
      | .boolv b => .ok (some (.boolv b))
      | _ => .error "Value must be true or false"
    else if field.field_type = "select" then
      match v with
      | .strv s =>
        let trimmed := pyStrip s
        match List.lookup "options" (field.options.getD []) with
        | none => .error "Select field is missing options"
        | some raw_options =>
          if raw_options.isEmpty then .error "Select field is missing options"
          else if trimmed = "" then
            .error ("Value must be one of: " ++ String.intercalate ", " raw_options)
          else if raw_options.contains trimmed then .ok (some (.strv trimmed))
          else .error ("Value must be one of: " ++ String.intercalate ", " raw_options)
      | _ => .error "Value must be a string"
    else .error "Unsupported field type"

/-- One iteration of the `for field in field_by_name.values()` loop:
extend the collected errors or the normalized document. -/
def validateStep (dateOk tsOk : String → Bool) (metadata_values : List (String × MValue))
    (acc : List (String × String) × List (String × MValue))
    (e : String × FieldDefinition) :
    List (String × String) × List (String × MValue) :=
  match checkFieldValue dateOk tsOk e.2 (List.lookup e.2.name metadata_values) with
  | .error msg => (acc.1 ++ [(e.2.name, msg)], acc.2)
  | .ok none => acc
  | .ok (some v) => (acc.1, dictInsert acc.2 e.2.name v)

def validate_metadata (dateOk tsOk : String → Bool)
    (field_definitions : List FieldDefinition)
    (metadata : Option (List (String × MValue))) :
    Except MetadataValidationError (Option (List (String × MValue))) :=
  let (metadata_values, provided) :=
    match metadata with
    | none => (([] : List (String × MValue)), false)
    | some m => (pyDictOf m, true)
  let field_by_name := pyDictOf (field_definitions.map (fun f => (f.name, f)))
  let unknown_errors := (metadata_values.filter
      (fun e => (List.lookup e.1 field_by_name).isNone)).map
      (fun e => (e.1, "Unknown field"))
  let result := field_by_name.foldl (validateStep dateOk tsOk metadata_values) ([], [])
  let errors := unknown_errors ++ result.1
  if errors.isEmpty then
    if result.2.isEmpty && !provided then .ok none else .ok (some result.2)
  else .error ⟨"Metadata validation failed", errors⟩

/-! ### `_parse_filter_value` and the per-token body of `_apply_item_filters`
(`app/api/items.py` lines 116-219).  `float(value)` is the stdlib external
`pyFloat` (an opaque float id on success). -/
inductive FilterVal where
  | strv (s : String)
  | intv (n : Int)
  | floatv (f : Int)
  | boolv (b : Bool)

def _parse_filter_value (pyFloat : String → Option Int) (dateOk tsOk : String → Bool)
    (field : FieldDefinition) (raw_value : String) : Except String FilterVal :=
  let value := pyStrip raw_value
  if value = "" then .error "Filter value cannot be blank"
  else if field.field_type = "text" ∨ field.field_type = "select" ∨
      field.field_type = "date" ∨ field.field_type = "timestamp" then
    let selCheck : Except String Unit :=
      if field.field_type = "select" then
        match List.lookup "options" (field.options.getD []) with
        | none => .error ("Select field \x27" ++ field.name ++ "\x27 is missing options")
        | some raw_options =>
          if raw_options.isEmpty then
            .error ("Select field \x27" ++ field.name ++ "\x27 is missing options")
          else if raw_options.contains value then .ok ()
          else .error ("Filter value must be one of: " ++ String.intercalate ", " raw_options)
      else .ok ()
    let dateCheck : Except String Unit :=
      if field.field_type = "date" then
        if dateOk value then .ok () else .error "Filter value must be a date (YYYY-MM-DD)"
      else .ok ()
    let tsCheck : Except String Unit :=
      if field.field_type = "timestamp" then
        if ¬ ('T' ∈ value.data ∨ ' ' ∈ value.data) then
          .error "Filter value must be a timestamp (ISO 8601)"
        else
          let adjusted := if value.data.getLast? = some 'Z' then
              String.mk value.data.dropLast ++ "+00:00" else value
          if tsOk adjusted then .ok ()
          else .error "Filter value must be a timestamp (ISO 8601)"
      else .ok ()
    match selCheck with
    | .error e => .error e
    | .ok _ =>
      match dateCheck with
      | .error e => .error e
      | .ok _ =>
        match tsCheck with
        | .error e => .error e
        | .ok _ => .ok (.strv value)
  else if field.field_type = "number" then
    if '.' ∈ value.data ∨ 'e' ∈ value.data ∨ 'E' ∈ value.data then
      match pyFloat value with
      | some f => .ok (.floatv f)
      | none => .error "Filter value must be a number"
    else
      match pyIntParse value with
      | some n => .ok (.intv n)
      | none => .error "Filter value must be a number"
  else if field.field_type = "checkbox" then
    let lowered := pyLower value
    if lowered = "true" ∨ lowered = "1" then .ok (.boolv true)
    else if lowered = "false" ∨ lowered = "0" then .ok (.boolv false)
    else .error "Filter value must be true or false"
  else .error ("Unsupported field type \x27" ++ field.field_type ++ "\x27")

/-- The body of `_apply_item_filters` for one filter token: split on the
first `=`, resolve the field, parse the value. -/
def _parse_filter_token (pyFloat : String → Option Int) (dateOk tsOk : String → Bool)
    (field_by_name : List (String × FieldDefinition)) (raw_filter : String) :
    Except String (String × FilterVal) :=
  if ¬ '=' ∈ raw_filter.data then .error "Filter must be in the format \x27Field=Value\x27"
  else
    match splitCharsN '=' 1 raw_filter.data with
    | [fn, rv] =>
      let field_name := pyStrip (String.mk fn)
      if field_name = "" then .error "Filter field name cannot be blank"
      else
        match List.lookup field_name field_by_name with
        | none => .error ("Unknown metadata field \x27" ++ field_name ++ "\x27")
        | some field =>
          match _parse_filter_value pyFloat dateOk tsOk field (String.mk rv) with
          | .error e => .error e
          | .ok v => .ok (field.name, v)
    | _ => .error "Filter must be in the format \x27Field=Value\x27"

def errContrib (dateOk tsOk : String → Bool) (mv : List (String × MValue))
    (e : String × FieldDefinition) : List (String × String) :=
  match checkFieldValue dateOk tsOk e.2 (List.lookup e.2.name mv) with
  | .error m => [(e.2.name, m)]
  | .ok _ => []

def normContrib (dateOk tsOk : String → Bool) (mv : List (String × MValue))
    (e : String × FieldDefinition) : List (String × MValue) :=
  match checkFieldValue dateOk tsOk e.2 (List.lookup e.2.name mv) with
  | .ok (some v) => [(e.2.name, v)]
  | _ => []

/-! ### The claims -/
/-! ### Concrete instances used by witnesses and counterexamples -/
def hmacEx : List Nat → List Nat → List Nat := fun k m => [(k.sum + m.sum) % 256]

def stEx : Settings := ⟨"sec", "HS256", 30⟩

def pbkdf2Ex : List Nat → List Nat → Int → List Nat :=
  fun pw salt _ => [(pw.sum + salt.sum) % 256]

def optTextField : FieldDefinition :=
  { name := "Notes", field_type := "text", is_required := false, options := none }

def fieldAEx : FieldDefinition :=
  { name := "Artist", field_type := "text", is_required := true, options := none }

def fieldBEx : FieldDefinition :=
  { name := "Signed", field_type := "checkbox", is_required := false, options := none }

def condFields : List (String × FieldDefinition) :=
  [("Condition",
    { name := "Condition", field_type := "select", is_required := false,
      options := some [("options", ["Excellent", "Good"])] })]

/-! ### Theorems -/

theorem b64EncodeChars_eq_map (bs : List Nat) :
    b64EncodeChars bs = (b64Groups bs).map b64Char := by
  match bs with
  | [] => rfl
  | [_] => rfl
  | [_, _] => rfl
  | b1 :: b2 :: b3 :: rest =>
    simp [b64EncodeChars, b64Groups, b64EncodeChars_eq_map rest]

theorem b64Groups_lt (bs : List Nat) (h : ∀ b ∈ bs, b < 256) :
    ∀ g ∈ b64Groups bs, g < 64 := by
  match bs with
  | [] => simp [b64Groups]
  | [b1] =>
    have := h b1 (by simp)
    simp only [b64Groups, List.mem_cons, List.not_mem_nil, or_false]
    rintro g (rfl | rfl) <;> omega
  | [b1, b2] =>
    have h1 := h b1 (by simp)
    have h2 := h b2 (by simp)
    simp only [b64Groups, List.mem_cons, List.not_mem_nil, or_false]
    rintro g (rfl | rfl | rfl) <;> omega
  | b1 :: b2 :: b3 :: rest =>
    have h1 := h b1 (by simp)
    have h2 := h b2 (by simp)
    have h3 := h b3 (by simp)
    have ih := b64Groups_lt rest (fun b hb => h b (by simp [hb]))
    simp only [b64Groups, List.mem_cons]
    rintro g (rfl | rfl | rfl | rfl | hg)
    · omega
    · omega
    · omega
    · omega
    · exact ih g hg

theorem b64Val_b64Char : ∀ n, n < 64 → b64Val (b64Char n) = some n := by decide

theorem b64Char_ascii : ∀ n, n < 64 →
    (b64Char n).toNat < 128 ∧ b64Char n ≠ '.' ∧ b64Char n ≠ '=' ∧ b64Char n ≠ '$' := by
  decide

theorem b64Val_eq_none_of_pad : b64Val '=' = none := by decide

theorem filterMap_b64Val_map (gs : List Nat) (h : ∀ g ∈ gs, g < 64) :
    (gs.map b64Char).filterMap b64Val = gs := by
  induction gs with
  | nil => rfl
  | cons g gs ih =>
    have hg := h g (by simp)
    simp [List.filterMap_cons, b64Val_b64Char g hg, ih (fun x hx => h x (by simp [hx]))]

theorem b64DecodeQuads_b64Groups (bs : List Nat) (h : ∀ b ∈ bs, b < 256) :
    b64DecodeQuads (b64Groups bs) = bs := by
  match bs with
  | [] => rfl
  | [b1] =>
    have := h b1 (by simp)
    simp only [b64Groups, b64DecodeQuads]
    congr 1
    omega
  | [b1, b2] =>
    have h1 := h b1 (by simp)
    have h2 := h b2 (by simp)
    simp only [b64Groups, b64DecodeQuads]
    congr 1
    · omega
    · congr 1
      omega
  | b1 :: b2 :: b3 :: rest =>
    have h1 := h b1 (by simp)
    have h2 := h b2 (by simp)
    have h3 := h b3 (by simp)
    have ih := b64DecodeQuads_b64Groups rest (fun b hb => h b (by simp [hb]))
    simp only [b64Groups, b64DecodeQuads, ih]
    congr 1
    · omega
    · congr 1
      · omega
      · congr 1
        omega

theorem b64Groups_length_mod (bs : List Nat) :
    (b64Groups bs).length % 4 ≠ 1 := by
  match bs with
  | [] => simp [b64Groups]
  | [_] => simp [b64Groups]
  | [_, _] => simp [b64Groups]
  | b1 :: b2 :: b3 :: rest =>
    have ih := b64Groups_length_mod rest
    simp only [b64Groups, List.length_cons]
    omega

theorem filterMap_b64Val_replicate_pad (n : Nat) :
    (List.replicate n '=').filterMap b64Val = [] := by
  induction n with
  | zero => rfl
  | succ n ih => simp [List.replicate_succ, List.filterMap_cons, b64Val_eq_none_of_pad, ih]

/-- `_b64url_decode(_b64url_encode(bs)) == bs` for any byte string. -/
theorem b64urlDecode_b64UrlEncode (bs : List Nat) (h : ∀ b ∈ bs, b < 256) :
    b64urlDecode (b64UrlEncode bs) = .ok bs := by
  have hlt := b64Groups_lt bs h
  have hmod := b64Groups_length_mod bs
  have hdchars : (b64UrlEncode bs).data = (b64Groups bs).map b64Char := by
    simp [b64UrlEncode, b64EncodeChars_eq_map]
  have hlen : (b64UrlEncode bs).length = (b64Groups bs).length := by
    show (b64UrlEncode bs).data.length = _
    rw [hdchars, List.length_map]
  simp only [b64urlDecode, b64DecodePadded, hdchars, hlen, List.filterMap_append,
    filterMap_b64Val_map _ hlt, filterMap_b64Val_replicate_pad, List.append_nil]
  by_cases h0 : (b64Groups bs).length % 4 = 0
  · rw [if_neg (by omega), if_pos (by omega), b64DecodeQuads_b64Groups bs h]
  · have hpad : ((b64Groups bs).map b64Char ++
        List.replicate ((4 - (b64Groups bs).length % 4) % 4) '=').contains '=' = true :=
      List.elem_eq_true_of_mem
        (List.mem_append_right _ (List.mem_replicate.mpr ⟨by omega, rfl⟩))
    rw [if_neg (by omega), if_neg (by omega), hpad, if_pos rfl, b64DecodeQuads_b64Groups bs h]

/-! ### Round-trip of the JSON layer -/
theorem digitsVal_append_singleton (xs : List Char) (c : Char) :
    digitsVal (xs ++ [c]) = digitsVal xs * 10 + (c.toNat - 48) := by
  simp [digitsVal, List.foldl_append]

theorem digit_char_isDigit : ∀ m, m < 10 → (Char.ofNat (48 + m)).isDigit = true := by decide

theorem digit_char_toNat : ∀ m, m < 10 → (Char.ofNat (48 + m)).toNat = 48 + m := by decide

theorem natCharsAux_spec : ∀ f n, n < f →
    natCharsAux f n ≠ [] ∧ (∀ c ∈ natCharsAux f n, c.isDigit = true) ∧
      digitsVal (natCharsAux f n) = n := by
  intro f
  induction f with
  | zero => omega
  | succ f ih =>
    intro n hn
    by_cases h10 : n < 10
    · refine ⟨by simp [natCharsAux, h10], ?_, ?_⟩
      · simp only [natCharsAux, if_pos h10, List.mem_singleton]
        rintro c rfl
        exact digit_char_isDigit n h10
      · simp [natCharsAux, if_pos h10, digitsVal, digit_char_toNat n h10]
    · have hdiv : n / 10 < f := by omega
      obtain ⟨hne, hdig, hval⟩ := ih (n / 10) hdiv
      refine ⟨by simp [natCharsAux, h10], ?_, ?_⟩
      · simp only [natCharsAux, if_neg h10, List.mem_append, List.mem_singleton]
        rintro c (hc | rfl)
        · exact hdig c hc
        · exact digit_char_isDigit (n % 10) (by omega)
      · rw [natCharsAux, if_neg h10, digitsVal_append_singleton, hval,
          digit_char_toNat (n % 10) (by omega)]
        omega

theorem natChars_spec (n : Nat) :
    natChars n ≠ [] ∧ (∀ c ∈ natChars n, c.isDigit = true) ∧ digitsVal (natChars n) = n :=
  natCharsAux_spec (n + 1) n (by omega)

theorem takeWhile_append_of_all {p : Char → Bool} (l r : List Char)
    (h : ∀ c ∈ l, p c = true) : (l ++ r).takeWhile p = l ++ r.takeWhile p := by
  induction l with
  | nil => simp
  | cons c l ih =>
    have hc : p c = true := h c (by simp)
    have ih' := ih (fun x hx => h x (by simp [hx]))
    simp [List.takeWhile_cons, hc, ih']

theorem dropWhile_append_of_all {p : Char → Bool} (l r : List Char)
    (h : ∀ c ∈ l, p c = true) : (l ++ r).dropWhile p = r.dropWhile p := by
  induction l with
  | nil => simp
  | cons c l ih =>
    have hc : p c = true := h c (by simp)
    have ih' := ih (fun x hx => h x (by simp [hx]))
    simp [List.dropWhile_cons, hc, ih']

theorem followOk_not_digit {rest : List Char} (h : FollowOk rest) :
    rest.takeWhile Char.isDigit = [] ∧ rest.dropWhile Char.isDigit = rest := by
  match rest with
  | [] => simp
  | c :: l =>
    rcases h with rfl | rfl | rfl <;> simp [List.takeWhile_cons, List.dropWhile_cons, Char.isDigit]

theorem parseNatPart_natChars (n : Nat) (rest : List Char) (h : FollowOk rest) :
    parseNatPart (natChars n ++ rest) = some (n, rest) := by
  obtain ⟨hne, hdig, hval⟩ := natChars_spec n
  obtain ⟨htw, hdw⟩ := followOk_not_digit h
  have h1 : (natChars n ++ rest).takeWhile Char.isDigit = natChars n := by
    rw [takeWhile_append_of_all _ _ hdig, htw, List.append_nil]
  have h2 : (natChars n ++ rest).dropWhile Char.isDigit = rest := by
    rw [dropWhile_append_of_all _ _ hdig, hdw]
  simp only [parseNatPart, h1, h2, if_neg hne, hval]
  match rest, h with
  | [], _ => rfl
  | c :: l, h => rcases h with rfl | rfl | rfl <;> rfl

theorem hexVal_hexDigitChar : ∀ m, m < 16 → hexVal (hexDigitChar m) = some m := by decide

theorem hexVal4_hex4 (n : Nat) (h : n < 65536) :
    hexVal4 (hexDigitChar (n / 4096 % 16)) (hexDigitChar (n / 256 % 16))
      (hexDigitChar (n / 16 % 16)) (hexDigitChar (n % 16)) = some n := by
  rw [hexVal4, hexVal_hexDigitChar _ (by omega), hexVal_hexDigitChar _ (by omega),
    hexVal_hexDigitChar _ (by omega), hexVal_hexDigitChar _ (by omega)]
  show some (n / 4096 % 16 * 4096 + n / 256 % 16 * 256 + n / 16 % 16 * 16 + n % 16) = some n
  congr 1
  omega

theorem char_valid_ranges (c : Char) :
    c.toNat < 0xd800 ∨ (0xe000 ≤ c.toNat ∧ c.toNat < 0x110000) := c.valid

/-! ### String escape round-trip -/
theorem parseHex4_hex4 (n : Nat) (h : n < 65536) (tail : List Char) :
    parseHex4 (hex4 n ++ tail) = some (n, tail) := by
  rw [show hex4 n ++ tail = hexDigitChar (n / 4096 % 16) :: hexDigitChar (n / 256 % 16) ::
      hexDigitChar (n / 16 % 16) :: hexDigitChar (n % 16) :: tail from rfl]
  simp only [parseHex4]
  rw [hexVal4_hex4 n h]

theorem parseEscape_hex (n : Nat) (h9 : n < 65536) (hlo : ¬ (0xd800 ≤ n ∧ n < 0xdc00))
    (hhi : ¬ (0xdc00 ≤ n ∧ n < 0xe000)) (tail : List Char) :
    parseEscape ('u' :: (hex4 n ++ tail)) = some (Char.ofNat n, tail) := by
  simp [parseEscape, parseHex4_hex4 n h9, hlo, hhi]

theorem parseEscape_surrogate (n : Nat) (hn : 0x10000 ≤ n) (hmax : n < 0x110000)
    (tail : List Char) :
    parseEscape ('u' :: (hex4 (0xd800 + (n - 0x10000) / 1024) ++
      ('\\' :: 'u' :: (hex4 (0xdc00 + (n - 0x10000) % 1024) ++ tail)))) =
      some (Char.ofNat n, tail) := by
  have hmod : (n - 0x10000) % 1024 < 1024 := Nat.mod_lt _ (by omega)
  have hhi : 0xd800 + (n - 0x10000) / 1024 < 65536 := by omega
  have hlo : 0xdc00 + (n - 0x10000) % 1024 < 65536 := by omega
  have hc1 : 0xd800 ≤ 0xd800 + (n - 0x10000) / 1024 ∧
      0xd800 + (n - 0x10000) / 1024 < 0xdc00 := by omega
  have hc2 : 0xdc00 ≤ 0xdc00 + (n - 0x10000) % 1024 ∧
      0xdc00 + (n - 0x10000) % 1024 < 0xe000 := by omega
  have harith : 0x10000 + (0xd800 + (n - 0x10000) / 1024 - 0xd800) * 0x400 +
      (0xdc00 + (n - 0x10000) % 1024 - 0xdc00) = n := by
    have := Nat.div_add_mod (n - 0x10000) 1024
    omega
  have harg : 65536 + (n - 65536) / 1024 * 1024 + (n - 65536) % 1024 = n := by
    have := Nat.div_add_mod (n - 65536) 1024
    omega
  simp [parseEscape, parseHex4_hex4 _ hhi, parseHex4_hex4 _ hlo, hc1.1, hc1.2, hc2.1, hc2.2,
    harith, harg]

theorem parseStringBodyF_backslash (f : Nat) (rest : List Char) :
    parseStringBodyF (f + 1) ('\\' :: rest) =
      (match parseEscape rest with
       | none => none
       | some (ch, r) => (parseStringBodyF f r).map (fun p => (ch :: p.1, p.2))) := rfl

theorem parseStringBodyF_plain (f : Nat) (c : Char) (rest : List Char) (h1 : ¬ c = '"')
    (h2 : ¬ c = '\\') (h3 : ¬ c.toNat < 0x20) :
    parseStringBodyF (f + 1) (c :: rest) =
      (parseStringBodyF f rest).map (fun p => (c :: p.1, p.2)) := by
  simp only [parseStringBodyF]
  rw [if_neg h1, if_neg h2, if_neg h3]

theorem parseStringBodyF_escapeChar (c : Char) (f : Nat) (tail : List Char) :
    parseStringBodyF (f + 1) (escapeChar c ++ tail) =
      (parseStringBodyF f tail).map (fun p => (c :: p.1, p.2)) := by
  by_cases h1 : c = '"'
  · subst h1; rfl
  by_cases h2 : c = '\\'
  · subst h2; rfl
  by_cases h3 : c = '\x08'
  · subst h3; rfl
  by_cases h4 : c = '\t'
  · subst h4; rfl
  by_cases h5 : c = '\n'
  · subst h5; rfl
  by_cases h6 : c = '\x0c'
  · subst h6; rfl
  by_cases h7 : c = '\r'
  · subst h7; rfl
  by_cases h8 : 0x20 ≤ c.toNat ∧ c.toNat ≤ 0x7e
  · have he : escapeChar c ++ tail = c :: tail := by
      simp [escapeChar, h1, h2, h3, h4, h5, h6, h7, h8]
    rw [he, parseStringBodyF_plain f c tail h1 h2 (by omega)]
  rcases char_valid_ranges c with hv | hv
  · have h9 : c.toNat < 0x10000 := by omega
    have he : escapeChar c ++ tail = '\\' :: ('u' :: (hex4 c.toNat ++ tail)) := by
      simp [escapeChar, h1, h2, h3, h4, h5, h6, h7, h8, h9]
    rw [he, parseStringBodyF_backslash,
      parseEscape_hex c.toNat h9 (by omega) (by omega) tail, Char.ofNat_toNat]
  · by_cases h9 : c.toNat < 0x10000
    · have he : escapeChar c ++ tail = '\\' :: ('u' :: (hex4 c.toNat ++ tail)) := by
        simp [escapeChar, h1, h2, h3, h4, h5, h6, h7, h8, h9]
      rw [he, parseStringBodyF_backslash,
        parseEscape_hex c.toNat h9 (by omega) (by omega) tail, Char.ofNat_toNat]
    · have he : escapeChar c ++ tail =
          '\\' :: ('u' :: (hex4 (0xd800 + (c.toNat - 0x10000) / 1024) ++
            ('\\' :: 'u' :: (hex4 (0xdc00 + (c.toNat - 0x10000) % 1024) ++ tail)))) := by
        simp only [escapeChar, if_neg h1, if_neg h2, if_neg h3, if_neg h4, if_neg h5,
          if_neg h6, if_neg h7, if_neg h8, if_neg h9]
        simp
      rw [he, parseStringBodyF_backslash,
        parseEscape_surrogate c.toNat (by omega) (by omega) tail, Char.ofNat_toNat]

theorem parseStringBodyF_flatMap (l : List Char) : ∀ f rest, l.length < f →
    parseStringBodyF f (l.flatMap escapeChar ++ '"' :: rest) = some (l, rest) := by
  induction l with
  | nil =>
    intro f rest hf
    match f, hf with
    | g + 1, _ => rfl
  | cons c l ih =>
    intro f rest hf
    match f, hf with
    | g + 1, hf =>
      rw [show (c :: l).flatMap escapeChar ++ '"' :: rest =
          escapeChar c ++ (l.flatMap escapeChar ++ '"' :: rest) by simp,
        parseStringBodyF_escapeChar c g _, ih g rest (by simpa using hf)]
      rfl

theorem escapeChar_ne_nil (c : Char) : escapeChar c ≠ [] := by
  by_cases h1 : c = '"'
  · subst h1; simp [escapeChar]
  by_cases h2 : c = '\\'
  · subst h2; simp [escapeChar]
  by_cases h3 : c = '\x08'
  · subst h3; simp [escapeChar]
  by_cases h4 : c = '\t'
  · subst h4; simp [escapeChar]
  by_cases h5 : c = '\n'
  · subst h5; simp [escapeChar]
  by_cases h6 : c = '\x0c'
  · subst h6; simp [escapeChar]
  by_cases h7 : c = '\r'
  · subst h7; simp [escapeChar]
  by_cases h8 : 0x20 ≤ c.toNat ∧ c.toNat ≤ 0x7e
  · simp [escapeChar, h1, h2, h3, h4, h5, h6, h7, h8]
  by_cases h9 : c.toNat < 0x10000
  · simp [escapeChar, h1, h2, h3, h4, h5, h6, h7, h8, h9]
  · simp [escapeChar, h1, h2, h3, h4, h5, h6, h7, h8, h9]

theorem length_le_flatMap_escape (l : List Char) :
    l.length ≤ (l.flatMap escapeChar).length := by
  induction l with
  | nil => simp
  | cons c l ih =>
    have hpos : 0 < (escapeChar c).length := List.length_pos.mpr (escapeChar_ne_nil c)
    simp only [List.flatMap_cons, List.length_append, List.length_cons]
    omega

/-- Parsing the serialized body of a string recovers exactly its
characters and the input that follows the closing quote. -/
theorem parseStringBody_dumps (l : List Char) (rest : List Char) :
    parseStringBody (l.flatMap escapeChar ++ '"' :: rest) = some (l, rest) := by
  have hlen := length_le_flatMap_escape l
  apply parseStringBodyF_flatMap
  simp only [List.length_append, List.length_cons]
  omega

theorem skipWs_cons (c : Char) (l : List Char) (h : isJsonWs c = false) :
    skipWs (c :: l) = c :: l := by
  simp [skipWs, List.dropWhile_cons, h]

theorem digit_facts (c : Char) (hd : c.isDigit = true) :
    isJsonWs c = false ∧ ¬ c = ']' ∧ ¬ c = '\x7d' ∧ ¬ c = ',' := by
  simp only [Char.isDigit, decide_eq_true_eq] at hd
  refine ⟨?_, ?_, ?_, ?_⟩
  · simp only [isJsonWs, Bool.or_eq_false_iff, decide_eq_false_iff_not]
    refine ⟨⟨⟨?_, ?_⟩, ?_⟩, ?_⟩ <;> (rintro rfl; revert hd; decide)
  · rintro rfl; revert hd; decide
  · rintro rfl; revert hd; decide
  · rintro rfl; revert hd; decide

theorem natChars_head (n : Nat) :
    ∃ c l, natChars n = c :: l ∧ c.isDigit = true := by
  obtain ⟨hne, hdig, -⟩ := natChars_spec n
  match hm : natChars n with
  | [] => exact absurd hm hne
  | c :: l => exact ⟨c, l, rfl, hdig c (by rw [hm]; simp)⟩

theorem dumpsChars_head (v : Json) : ∃ c l, dumpsChars v = c :: l ∧ isJsonWs c = false ∧
    ¬ c = ']' ∧ ¬ c = '\x7d' := by
  cases v with
  | null =>
    refine ⟨'n', _, rfl, ?_, ?_, ?_⟩ <;> decide
  | bool b =>
    cases b with
    | true => refine ⟨'t', _, rfl, ?_, ?_, ?_⟩ <;> decide
    | false => refine ⟨'f', _, rfl, ?_, ?_, ?_⟩ <;> decide
  | num i =>
    by_cases hneg : i < 0
    · refine ⟨'-', natChars i.natAbs, by simp [dumpsChars, intChars, hneg], ?_, ?_, ?_⟩ <;>
        decide
    · obtain ⟨c, l, hc, hd⟩ := natChars_head i.toNat
      obtain ⟨hws, h1, h2, -⟩ := digit_facts c hd
      exact ⟨c, l, by simp [dumpsChars, intChars, hneg, hc], hws, h1, h2⟩
  | str s =>
    refine ⟨'"', _, rfl, ?_, ?_, ?_⟩ <;> decide
  | arr xs =>
    cases xs with
    | nil => refine ⟨'[', _, rfl, ?_, ?_, ?_⟩ <;> decide
    | cons x xs => refine ⟨'[', _, rfl, ?_, ?_, ?_⟩ <;> decide
  | obj es =>
    cases es with
    | nil => refine ⟨'\x7b', _, rfl, ?_, ?_, ?_⟩ <;> decide
    | cons e es => refine ⟨'\x7b', _, rfl, ?_, ?_, ?_⟩ <;> decide

theorem parseVal_null_lit (f : Nat) (rest : List Char) :
    parseVal (f + 1) ('n' :: 'u' :: 'l' :: 'l' :: rest) = some (.null, rest) := rfl

theorem parseVal_true_lit (f : Nat) (rest : List Char) :
    parseVal (f + 1) ('t' :: 'r' :: 'u' :: 'e' :: rest) = some (.bool true, rest) := rfl

theorem parseVal_false_lit (f : Nat) (rest : List Char) :
    parseVal (f + 1) ('f' :: 'a' :: 'l' :: 's' :: 'e' :: rest) = some (.bool false, rest) := rfl

theorem parseVal_quote (f : Nat) (rest : List Char) :
    parseVal (f + 1) ('"' :: rest) =
      (parseStringBody rest).map (fun p => (Json.str (String.mk p.1), p.2)) := rfl

theorem parseVal_lbracket (f : Nat) (rest : List Char) :
    parseVal (f + 1) ('[' :: rest) = parseArrBody f (skipWs rest) := rfl

theorem parseVal_lbrace (f : Nat) (rest : List Char) :
    parseVal (f + 1) ('\x7b' :: rest) = parseObjBody f (skipWs rest) := rfl

theorem parseVal_dash (f : Nat) (rest : List Char) :
    parseVal (f + 1) ('-' :: rest) =
      (parseNatPart rest).map (fun p => (Json.num (-(p.1 : Int)), p.2)) := rfl

theorem parseVal_digit (f : Nat) (c : Char) (rest : List Char) (hd : c.isDigit = true) :
    parseVal (f + 1) (c :: rest) =
      (parseNatPart (c :: rest)).map (fun p => (Json.num (p.1 : Int), p.2)) := by
  obtain ⟨hws, -, -, -⟩ := digit_facts c hd
  have h1 : ¬ c = 'n' := by rintro rfl; revert hd; decide
  have h2 : ¬ c = 't' := by rintro rfl; revert hd; decide
  have h3 : ¬ c = 'f' := by rintro rfl; revert hd; decide
  have h4 : ¬ c = '"' := by rintro rfl; revert hd; decide
  have h5 : ¬ c = '[' := by rintro rfl; revert hd; decide
  have h6 : ¬ c = '\x7b' := by rintro rfl; revert hd; decide
  have h7 : ¬ c = '-' := by rintro rfl; revert hd; decide
  simp only [parseVal, skipWs_cons c rest hws]
  rw [if_neg h1, if_neg h2, if_neg h3, if_neg h4, if_neg h5, if_neg h6, if_neg h7]

theorem parseArrBody_cons (f : Nat) (c : Char) (r2 : List Char) (hne : ¬ c = ']') :
    parseArrBody (f + 1) (c :: r2) =
      (parseItems f (c :: r2)).map (fun p => (Json.arr p.1, p.2)) := by
  simp only [parseArrBody]
  rw [if_neg hne]

theorem parseObjBody_cons (f : Nat) (c : Char) (r2 : List Char) (hne : ¬ c = '\x7d') :
    parseObjBody (f + 1) (c :: r2) =
      (parseEntries f (c :: r2)).map (fun p => (Json.obj p.1, p.2)) := by
  simp only [parseObjBody]
  rw [if_neg hne]

theorem parseItems_step (f : Nat) (cs : List Char) :
    parseItems (f + 1) cs =
      (match parseVal f cs with
       | none => none
       | some (v, r) =>
         match skipWs r with
         | [] => none
         | c :: r2 =>
           if c = ',' then (parseItems f r2).map (fun p => (v :: p.1, p.2))
           else if c = ']' then some ([v], r2)
           else none) := rfl

theorem parseEntries_step (f : Nat) (cs : List Char) :
    parseEntries (f + 1) cs =
      (match skipWs cs with
       | [] => none
       | c :: rest =>
         if c = '"' then
           match parseStringBody rest with
           | none => none
           | some (k, r) =>
             match skipWs r with
             | [] => none
             | c2 :: r2 =>
               if c2 = ':' then
                 match parseVal f r2 with
                 | none => none
                 | some (v, r3) =>
                   match skipWs r3 with
                   | [] => none
                   | c3 :: r4 =>
                     if c3 = ',' then
                       (parseEntries f r4).map (fun p => ((String.mk k, v) :: p.1, p.2))
                     else if c3 = '\x7d' then some ([(String.mk k, v)], r4)
                     else none
               else none
         else none) := rfl

theorem followOk_comma (l : List Char) : FollowOk (',' :: l) := Or.inl rfl

theorem followOk_rbracket (l : List Char) : FollowOk (']' :: l) := Or.inr (Or.inl rfl)

theorem followOk_rbrace (l : List Char) : FollowOk ('\x7d' :: l) := Or.inr (Or.inr rfl)

theorem json_sizeOf_pos (v : Json) : 1 ≤ sizeOf v := by
  cases v <;> simp

/-- The three round-trip properties, proved simultaneously by strong
induction on term size. -/
theorem parse_dumps_master : ∀ n : Nat,
    (∀ v : Json, sizeOf v ≤ n → ∀ f rest, needV v ≤ f → FollowOk rest →
      parseVal f (dumpsChars v ++ rest) = some (v, rest)) ∧
    (∀ (x : Json) (xs : List Json), 1 + sizeOf x + sizeOf xs ≤ n → ∀ f rest,
      needL (x :: xs) ≤ f → FollowOk rest →
      parseItems f (dumpsItems (x :: xs) ++ rest) = some (x :: xs, rest)) ∧
    (∀ (e : String × Json) (es : List (String × Json)), 1 + sizeOf e + sizeOf es ≤ n →
      ∀ f rest, needE (e :: es) ≤ f → FollowOk rest →
      parseEntries f (dumpsEntries (e :: es) ++ rest) = some (e :: es, rest)) := by
  intro n
  induction n with
  | zero =>
    refine ⟨fun v hv => absurd hv (by have := json_sizeOf_pos v; omega),
      fun x xs hv => absurd hv (by omega), fun e es hv => absurd hv (by omega)⟩
  | succ n ih =>
    obtain ⟨ihV, ihL, ihE⟩ := ih
    refine ⟨?_, ?_, ?_⟩
    · -- values
      intro v hsize f rest hf hr
      cases v with
      | null =>
        have h1 : 1 ≤ f := le_trans (by simp [needV]) hf
        obtain ⟨g, rfl⟩ : ∃ g, f = g + 1 := ⟨f - 1, by omega⟩
        rw [show dumpsChars .null ++ rest = 'n' :: 'u' :: 'l' :: 'l' :: rest from rfl]
        exact parseVal_null_lit g rest
      | bool b =>
        have h1 : 1 ≤ f := le_trans (by cases b <;> simp [needV]) hf
        obtain ⟨g, rfl⟩ : ∃ g, f = g + 1 := ⟨f - 1, by omega⟩
        cases b with
        | true =>
          rw [show dumpsChars (.bool true) ++ rest = 't' :: 'r' :: 'u' :: 'e' :: rest from rfl]
          exact parseVal_true_lit g rest
        | false =>
          rw [show dumpsChars (.bool false) ++ rest =
            'f' :: 'a' :: 'l' :: 's' :: 'e' :: rest from rfl]
          exact parseVal_false_lit g rest
      | num i =>
        have h1 : 1 ≤ f := le_trans (by simp [needV]) hf
        obtain ⟨g, rfl⟩ : ∃ g, f = g + 1 := ⟨f - 1, by omega⟩
        by_cases hneg : i < 0
        · rw [show dumpsChars (.num i) ++ rest = '-' :: (natChars i.natAbs ++ rest) by
            simp [dumpsChars, intChars, hneg]]
          rw [parseVal_dash, parseNatPart_natChars _ _ hr, Option.map_some']
          have : (-(i.natAbs : Int)) = i := by omega
          rw [this]
        · obtain ⟨c, l, hc, hd⟩ := natChars_head i.toNat
          rw [show dumpsChars (.num i) ++ rest = c :: (l ++ rest) by
            simp [dumpsChars, intChars, hneg, hc]]
          rw [parseVal_digit g c _ hd,
            show c :: (l ++ rest) = natChars i.toNat ++ rest by simp [hc],
            parseNatPart_natChars _ _ hr, Option.map_some']
          have : ((i.toNat : Int)) = i := Int.toNat_of_nonneg (by omega)
          rw [this]
      | str s =>
        have h1 : 1 ≤ f := le_trans (by simp [needV]) hf
        obtain ⟨g, rfl⟩ : ∃ g, f = g + 1 := ⟨f - 1, by omega⟩
        rw [show dumpsChars (.str s) ++ rest =
            '"' :: (s.data.flatMap escapeChar ++ '"' :: rest) by
            simp [dumpsChars, dumpsString],
          parseVal_quote, parseStringBody_dumps, Option.map_some']
      | arr xs =>
        cases xs with
        | nil =>
          have h1 : 3 ≤ f := le_trans (by simp [needV, needL]) hf
          obtain ⟨g, rfl⟩ : ∃ g, f = g + 2 := ⟨f - 2, by omega⟩
          rw [show dumpsChars (.arr []) ++ rest = '[' :: (']' :: rest) from rfl,
            show g + 2 = (g + 1) + 1 from rfl, parseVal_lbracket,
            skipWs_cons ']' rest (by decide)]
          rfl
        | cons x xs =>
          have hL : needL (x :: xs) + 2 ≤ f := by
            have : needV (.arr (x :: xs)) = 2 + needL (x :: xs) := by simp [needV]
            omega
          have h1 : 1 ≤ needL (x :: xs) := by simp only [needL]; omega
          obtain ⟨g, rfl⟩ : ∃ g, f = g + 2 := ⟨f - 2, by omega⟩
          obtain ⟨c, l, hc, hws, hne, -⟩ := dumpsChars_head x
          obtain ⟨t, ht⟩ : ∃ t, dumpsItems (x :: xs) ++ rest = c :: t := by
            cases xs <;> simp [dumpsItems, hc]
          have hsz : 1 + sizeOf x + sizeOf xs ≤ n := by
            simp only [Json.arr.sizeOf_spec, List.cons.sizeOf_spec] at hsize
            omega
          rw [show dumpsChars (.arr (x :: xs)) ++ rest =
              '[' :: (dumpsItems (x :: xs) ++ rest) by simp [dumpsChars],
            show g + 2 = (g + 1) + 1 from rfl, parseVal_lbracket, ht,
            skipWs_cons c t hws, parseArrBody_cons g c t hne, ← ht,
            ihL x xs hsz g rest (by omega) hr, Option.map_some']
      | obj es =>
        cases es with
        | nil =>
          have h1 : 3 ≤ f := le_trans (by simp [needV, needE]) hf
          obtain ⟨g, rfl⟩ : ∃ g, f = g + 2 := ⟨f - 2, by omega⟩
          rw [show dumpsChars (.obj []) ++ rest = '\x7b' :: ('\x7d' :: rest) from rfl,
            show g + 2 = (g + 1) + 1 from rfl, parseVal_lbrace,
            skipWs_cons '\x7d' rest (by decide)]
          rfl
        | cons e es =>
          have hL : needE (e :: es) + 2 ≤ f := by
            have : needV (.obj (e :: es)) = 2 + needE (e :: es) := by simp [needV]
            omega
          have h1 : 1 ≤ needE (e :: es) := by
            obtain ⟨k, v⟩ := e
            simp only [needE]
            omega
          obtain ⟨g, rfl⟩ : ∃ g, f = g + 2 := ⟨f - 2, by omega⟩
          obtain ⟨t, ht⟩ : ∃ t, dumpsEntries (e :: es) ++ rest = '"' :: t := by
            obtain ⟨k, v⟩ := e
            cases es <;> simp [dumpsEntries, dumpsString]
          have hsz : 1 + sizeOf e + sizeOf es ≤ n := by
            simp only [Json.obj.sizeOf_spec, List.cons.sizeOf_spec] at hsize
            omega
          rw [show dumpsChars (.obj (e :: es)) ++ rest =
              '\x7b' :: (dumpsEntries (e :: es) ++ rest) by simp [dumpsChars],
            show g + 2 = (g + 1) + 1 from rfl, parseVal_lbrace, ht,
            skipWs_cons '"' t (by decide), parseObjBody_cons g '"' t (by decide), ← ht,
            ihE e es hsz g rest (by omega) hr, Option.map_some']
    · -- items of a nonempty array
      intro x xs hsize f rest hf hr
      have hneedL : needL (x :: xs) = 1 + needV x + needL xs := by simp [needL]
      have h1 : 1 ≤ f := by omega
      obtain ⟨g, rfl⟩ : ∃ g, f = g + 1 := ⟨f - 1, by omega⟩
      have hszx : sizeOf x ≤ n := by omega
      cases xs with
      | nil =>
        rw [show dumpsItems [x] ++ rest = dumpsChars x ++ (']' :: rest) by simp [dumpsItems],
          parseItems_step g, ihV x hszx g (']' :: rest) (by omega) (followOk_rbracket rest)]
        simp [skipWs_cons ']' rest (by decide)]
      | cons y ys =>
        have hszy : 1 + sizeOf y + sizeOf ys ≤ n := by
          have hx := json_sizeOf_pos x
          simp only [List.cons.sizeOf_spec] at hsize
          omega
        rw [show dumpsItems (x :: y :: ys) ++ rest =
            dumpsChars x ++ (',' :: (dumpsItems (y :: ys) ++ rest)) by simp [dumpsItems],
          parseItems_step g,
          ihV x hszx g (',' :: (dumpsItems (y :: ys) ++ rest)) (by omega) (followOk_comma _)]
        have hys : needL (y :: ys) ≤ g := by omega
        simp [skipWs_cons ',' _ (by decide), ihL y ys hszy g rest hys hr]
    · -- entries of a nonempty object
      intro e es hsize f rest hf hr
      obtain ⟨k, v⟩ := e
      have hneedE : needE ((k, v) :: es) = 1 + needV v + needE es := by simp [needE]
      have h1 : 1 ≤ f := by omega
      obtain ⟨g, rfl⟩ : ∃ g, f = g + 1 := ⟨f - 1, by omega⟩
      have hszv : sizeOf v ≤ n := by
        simp only [Prod.mk.sizeOf_spec] at hsize
        omega
      cases es with
      | nil =>
        rw [show dumpsEntries [(k, v)] ++ rest =
            '"' :: (k.data.flatMap escapeChar ++ '"' ::
              (':' :: (dumpsChars v ++ ('\x7d' :: rest)))) by
            simp [dumpsEntries, dumpsString],
          parseEntries_step g, skipWs_cons '"' _ (by decide)]
        simp only [if_pos rfl]
        rw [parseStringBody_dumps]
        simp [skipWs_cons ':' _ (by decide), skipWs_cons '\x7d' rest (by decide),
          ihV v hszv g ('\x7d' :: rest) (by omega) (followOk_rbrace rest)]
      | cons e2 es2 =>
        have hsze : 1 + sizeOf e2 + sizeOf es2 ≤ n := by
          simp only [Prod.mk.sizeOf_spec, List.cons.sizeOf_spec] at hsize
          have hv := json_sizeOf_pos v
          omega
        rw [show dumpsEntries ((k, v) :: e2 :: es2) ++ rest =
            '"' :: (k.data.flatMap escapeChar ++ '"' ::
              (':' :: (dumpsChars v ++ (',' :: (dumpsEntries (e2 :: es2) ++ rest))))) by
            simp [dumpsEntries, dumpsString],
          parseEntries_step g, skipWs_cons '"' _ (by decide)]
        simp only [if_pos rfl]
        rw [parseStringBody_dumps]
        have hes : needE (e2 :: es2) ≤ g := by omega
        simp [skipWs_cons ':' _ (by decide), skipWs_cons ',' _ (by decide),
          ihV v hszv g (',' :: (dumpsEntries (e2 :: es2) ++ rest)) (by omega)
            (followOk_comma _),
          ihE e2 es2 hsze g rest hes hr]

/-- `parseVal` undoes `dumpsChars` given enough fuel. -/
theorem parseVal_dumps (v : Json) (f : Nat) (rest : List Char) (hf : needV v ≤ f)
    (hr : FollowOk rest) : parseVal f (dumpsChars v ++ rest) = some (v, rest) :=
  (parse_dumps_master (sizeOf v)).1 v le_rfl f rest hf hr

theorem need_bound_master : ∀ n : Nat,
    (∀ v : Json, sizeOf v ≤ n → needV v ≤ 2 * (dumpsChars v).length) ∧
    (∀ (x : Json) (xs : List Json), 1 + sizeOf x + sizeOf xs ≤ n →
      needL (x :: xs) ≤ 2 * (dumpsItems (x :: xs)).length) ∧
    (∀ (e : String × Json) (es : List (String × Json)), 1 + sizeOf e + sizeOf es ≤ n →
      needE (e :: es) ≤ 2 * (dumpsEntries (e :: es)).length) := by
  intro n
  induction n with
  | zero =>
    refine ⟨fun v hv => absurd hv (by have := json_sizeOf_pos v; omega),
      fun x xs hv => absurd hv (by omega), fun e es hv => absurd hv (by omega)⟩
  | succ n ih =>
    obtain ⟨ihV, ihL, ihE⟩ := ih
    refine ⟨?_, ?_, ?_⟩
    · intro v hsize
      cases v with
      | null => simp [needV, dumpsChars]
      | bool b => cases b <;> simp [needV, dumpsChars]
      | num i =>
        obtain ⟨c, l, hc, -⟩ := dumpsChars_head (.num i)
        simp [needV, hc]
        omega
      | str s => simp [needV, dumpsChars, dumpsString]; omega
      | arr xs =>
        cases xs with
        | nil => simp [needV, needL, dumpsChars]
        | cons x xs =>
          have hsz : 1 + sizeOf x + sizeOf xs ≤ n := by
            simp only [Json.arr.sizeOf_spec, List.cons.sizeOf_spec] at hsize
            omega
          have := ihL x xs hsz
          simp only [needV, dumpsChars, List.length_cons]
          omega
      | obj es =>
        cases es with
        | nil => simp [needV, needE, dumpsChars]
        | cons e es =>
          have hsz : 1 + sizeOf e + sizeOf es ≤ n := by
            simp only [Json.obj.sizeOf_spec, List.cons.sizeOf_spec] at hsize
            omega
          have := ihE e es hsz
          simp only [needV, dumpsChars, List.length_cons]
          omega
    · intro x xs hsize
      have hx : sizeOf x ≤ n := by omega
      have hVx := ihV x hx
      cases xs with
      | nil =>
        simp only [needL, dumpsItems, List.length_append, List.length_cons,
          List.length_nil]
        omega
      | cons y ys =>
        have hsz : 1 + sizeOf y + sizeOf ys ≤ n := by
          have := json_sizeOf_pos x
          simp only [List.cons.sizeOf_spec] at hsize
          omega
        have h2 := ihL y ys hsz
        simp only [needL] at h2 ⊢
        simp only [dumpsItems, List.length_append, List.length_cons]
        omega
    · intro e es hsize
      obtain ⟨k, v⟩ := e
      have hv : sizeOf v ≤ n := by
        simp only [Prod.mk.sizeOf_spec] at hsize
        omega
      have hVv := ihV v hv
      cases es with
      | nil =>
        simp only [needE, dumpsEntries, List.length_append, List.length_cons,
          List.length_nil]
        omega
      | cons e2 es2 =>
        have hsz : 1 + sizeOf e2 + sizeOf es2 ≤ n := by
          have := json_sizeOf_pos v
          simp only [Prod.mk.sizeOf_spec, List.cons.sizeOf_spec] at hsize
          omega
        have h2 := ihE e2 es2 hsz
        obtain ⟨k2, v2⟩ := e2
        simp only [needE] at h2 ⊢
        simp only [dumpsEntries, List.length_append, List.length_cons]
        omega

/-- `json.loads(json.dumps(v)) == v`: the serializer and parser are a
round-trip on every representable JSON value. -/
theorem jsonLoads_jsonDumps (v : Json) : jsonLoads (jsonDumps v) = some v := by
  have hb := (need_bound_master (sizeOf v)).1 v le_rfl
  have hlen : (jsonDumps v).length = (dumpsChars v).length := rfl
  have hdata : (jsonDumps v).data = dumpsChars v ++ [] := by simp [jsonDumps]
  rw [jsonLoads, hlen, hdata, parseVal_dumps v _ [] (by omega) trivial]
  rfl

/-! ### The serializer emits only ASCII (`ensure_ascii=True`) -/
theorem hexDigitChar_ascii (m : Nat) (h : m < 16) : (hexDigitChar m).toNat < 128 := by
  interval_cases m <;> decide

set_option maxRecDepth 4000 in
theorem escapeChar_ascii (c : Char) : ∀ a ∈ escapeChar c, a.toNat < 128 := by
  by_cases h1 : c = '"'
  · subst h1; decide
  by_cases h2 : c = '\\'
  · subst h2; decide
  by_cases h3 : c = '\x08'
  · subst h3; decide
  by_cases h4 : c = '\t'
  · subst h4; decide
  by_cases h5 : c = '\n'
  · subst h5; decide
  by_cases h6 : c = '\x0c'
  · subst h6; decide
  by_cases h7 : c = '\r'
  · subst h7; decide
  by_cases h8 : 0x20 ≤ c.toNat ∧ c.toNat ≤ 0x7e
  · intro a ha
    rw [show escapeChar c = [c] by simp [escapeChar, h1, h2, h3, h4, h5, h6, h7, h8]] at ha
    simp at ha
    subst ha
    omega
  by_cases h9 : c.toNat < 0x10000
  · intro a ha
    rw [show escapeChar c = '\\' :: 'u' :: hex4 c.toNat by
      simp [escapeChar, h1, h2, h3, h4, h5, h6, h7, h8, h9]] at ha
    simp only [hex4, List.mem_cons, List.not_mem_nil, or_false] at ha
    rcases ha with ha | ha | ha | ha | ha | ha <;>
      rw [ha] <;>
      first
        | decide
        | exact hexDigitChar_ascii _ (by omega)
  · intro a ha
    rw [show escapeChar c =
        ('\\' :: 'u' :: hex4 (0xd800 + (c.toNat - 0x10000) / 1024)) ++
        ('\\' :: 'u' :: hex4 (0xdc00 + (c.toNat - 0x10000) % 1024)) by
      simp [escapeChar, h1, h2, h3, h4, h5, h6, h7, h8, h9]] at ha
    simp only [hex4, List.mem_append, List.mem_cons, List.not_mem_nil, or_false] at ha
    rcases ha with (ha | ha | ha | ha | ha | ha) | (ha | ha | ha | ha | ha | ha) <;>
      rw [ha] <;>
      first
        | decide
        | exact hexDigitChar_ascii _ (by omega)

theorem dumpsString_ascii (s : String) : ∀ a ∈ dumpsString s, a.toNat < 128 := by
  intro a ha
  simp only [dumpsString, List.mem_cons, List.mem_append, List.mem_flatMap,
    List.mem_singleton, List.not_mem_nil, or_false] at ha
  rcases ha with rfl | ⟨c, -, hc⟩ | rfl
  · decide
  · exact escapeChar_ascii c a hc
  · decide

theorem digit_ascii (c : Char) (hd : c.isDigit = true) : c.toNat < 128 := by
  simp only [Char.isDigit, ge_iff_le, Bool.and_eq_true, decide_eq_true_eq] at hd
  have h3 : c.val.toNat ≤ 57 := hd.2
  simp only [Char.toNat]
  omega

theorem intChars_ascii (i : Int) : ∀ a ∈ intChars i, a.toNat < 128 := by
  intro a ha
  by_cases hneg : i < 0
  · rw [show intChars i = '-' :: natChars i.natAbs by simp [intChars, hneg]] at ha
    simp only [List.mem_cons] at ha
    rcases ha with rfl | ha
    · decide
    · exact digit_ascii a ((natChars_spec i.natAbs).2.1 a ha)
  · rw [show intChars i = natChars i.toNat by simp [intChars, hneg]] at ha
    exact digit_ascii a ((natChars_spec i.toNat).2.1 a ha)

theorem dumps_ascii_master : ∀ n : Nat,
    (∀ v : Json, sizeOf v ≤ n → ∀ a ∈ dumpsChars v, a.toNat < 128) ∧
    (∀ (x : Json) (xs : List Json), 1 + sizeOf x + sizeOf xs ≤ n →
      ∀ a ∈ dumpsItems (x :: xs), a.toNat < 128) ∧
    (∀ (e : String × Json) (es : List (String × Json)), 1 + sizeOf e + sizeOf es ≤ n →
      ∀ a ∈ dumpsEntries (e :: es), a.toNat < 128) := by
  intro n
  induction n with
  | zero =>
    refine ⟨fun v hv => absurd hv (by have := json_sizeOf_pos v; omega),
      fun x xs hv => absurd hv (by omega), fun e es hv => absurd hv (by omega)⟩
  | succ n ih =>
    obtain ⟨ihV, ihL, ihE⟩ := ih
    refine ⟨?_, ?_, ?_⟩
    · intro v hsize a ha
      cases v with
      | null =>
        rw [show dumpsChars Json.null = ['n', 'u', 'l', 'l'] from rfl] at ha
        fin_cases ha <;> decide
      | bool b =>
        cases b
        · rw [show dumpsChars (Json.bool false) = ['f', 'a', 'l', 's', 'e'] from rfl] at ha
          fin_cases ha <;> decide
        · rw [show dumpsChars (Json.bool true) = ['t', 'r', 'u', 'e'] from rfl] at ha
          fin_cases ha <;> decide
      | num i => exact intChars_ascii i a ha
      | str s => exact dumpsString_ascii s a ha
      | arr xs =>
        cases xs with
        | nil =>
          rw [show dumpsChars (Json.arr []) = ['[', ']'] from rfl] at ha
          fin_cases ha <;> decide
        | cons x xs =>
          have hsz : 1 + sizeOf x + sizeOf xs ≤ n := by
            simp only [Json.arr.sizeOf_spec, List.cons.sizeOf_spec] at hsize
            omega
          simp only [dumpsChars, List.mem_cons] at ha
          rcases ha with rfl | ha
          · decide
          · exact ihL x xs hsz a ha
      | obj es =>
        cases es with
        | nil =>
          rw [show dumpsChars (Json.obj []) = ['\x7b', '\x7d'] from rfl] at ha
          fin_cases ha <;> decide
        | cons e es =>
          have hsz : 1 + sizeOf e + sizeOf es ≤ n := by
            simp only [Json.obj.sizeOf_spec, List.cons.sizeOf_spec] at hsize
            omega
          simp only [dumpsChars, List.mem_cons] at ha
          rcases ha with rfl | ha
          · decide
          · exact ihE e es hsz a ha
    · intro x xs hsize a ha
      have hx : sizeOf x ≤ n := by omega
      cases xs with
      | nil =>
        simp only [dumpsItems, List.mem_append, List.mem_cons, List.mem_singleton,
          List.not_mem_nil, or_false] at ha
        rcases ha with ha | rfl
        · exact ihV x hx a ha
        · decide
      | cons y ys =>
        have hsz : 1 + sizeOf y + sizeOf ys ≤ n := by
          have := json_sizeOf_pos x
          simp only [List.cons.sizeOf_spec] at hsize
          omega
        simp only [dumpsItems, List.mem_append, List.mem_cons] at ha
        rcases ha with ha | rfl | ha
        · exact ihV x hx a ha
        · decide
        · exact ihL y ys hsz a ha
    · intro e es hsize a ha
      obtain ⟨k, v⟩ := e
      have hv : sizeOf v ≤ n := by
        simp only [Prod.mk.sizeOf_spec] at hsize
        omega
      cases es with
      | nil =>
        simp only [dumpsEntries, List.mem_append, List.mem_cons, List.mem_singleton,
          List.not_mem_nil, or_false] at ha
        rcases ha with ha | rfl | ha | rfl
        · exact dumpsString_ascii k a ha
        · decide
        · exact ihV v hv a ha
        · decide
      | cons e2 es2 =>
        have hsz : 1 + sizeOf e2 + sizeOf es2 ≤ n := by
          have := json_sizeOf_pos v
          simp only [Prod.mk.sizeOf_spec, List.cons.sizeOf_spec] at hsize
          omega
        simp only [dumpsEntries, List.mem_append, List.mem_cons] at ha
        rcases ha with ha | rfl | ha | rfl | ha
        · exact dumpsString_ascii k a ha
        · decide
        · exact ihV v hv a ha
        · decide
        · exact ihE e2 es2 hsz a ha

theorem dumpsChars_ascii (v : Json) : ∀ a ∈ dumpsChars v, a.toNat < 128 :=
  (dumps_ascii_master (sizeOf v)).1 v le_rfl

/-! ### Supporting lemmas: byte-level facts, segment decoding, splitting -/
theorem utf8EncodeChar_ascii (c : Char) (h : c.toNat < 128) : utf8EncodeChar c = [c.toNat] := by
  simp [utf8EncodeChar, h]

theorem flatMap_utf8_ascii (l : List Char) (h : ∀ c ∈ l, c.toNat < 128) :
    l.flatMap utf8EncodeChar = l.map Char.toNat := by
  induction l with
  | nil => rfl
  | cons c l ih =>
    rw [List.flatMap_cons, utf8EncodeChar_ascii c (h c (by simp)), List.map_cons,
      ih (fun x hx => h x (by simp [hx]))]
    rfl

theorem utf8Encode_of_ascii (s : String) (h : ∀ c ∈ s.data, c.toNat < 128) :
    utf8Encode s = s.data.map Char.toNat :=
  flatMap_utf8_ascii s.data h

theorem asciiDecodeBytes_map_toNat (l : List Char) (h : ∀ c ∈ l, c.toNat < 128) :
    asciiDecodeBytes (l.map Char.toNat) = some l := by
  rw [asciiDecodeBytes, if_pos]
  · rw [List.map_map]
    congr 1
    exact List.map_congr_left (fun c _ => Char.ofNat_toNat c) |>.trans (List.map_id l)
  · rw [List.all_eq_true]
    intro b hb
    obtain ⟨c, hc, rfl⟩ := List.mem_map.mp hb
    simpa using h c hc

theorem asciiEncode_of_ascii (s : String) (h : ∀ c ∈ s.data, c.toNat < 128) :
    asciiEncode s = some (s.data.map Char.toNat) := by
  rw [asciiEncode, if_pos]
  rw [List.all_eq_true]
  intro c hc
  simpa using h c hc

theorem map_toNat_lt_256 (l : List Char) (h : ∀ c ∈ l, c.toNat < 128) :
    ∀ b ∈ l.map Char.toNat, b < 256 := by
  intro b hb
  obtain ⟨c, hc, rfl⟩ := List.mem_map.mp hb
  have := h c hc
  omega

theorem b64EncodeChars_facts (bs : List Nat) (h : ∀ b ∈ bs, b < 256) :
    ∀ c ∈ b64EncodeChars bs, c.toNat < 128 ∧ c ≠ '.' ∧ c ≠ '$' := by
  intro c hc
  rw [b64EncodeChars_eq_map] at hc
  obtain ⟨g, hg, rfl⟩ := List.mem_map.mp hc
  have hlt := b64Groups_lt bs h g hg
  obtain ⟨ha, hd, -, hs⟩ := b64Char_ascii g hlt
  exact ⟨ha, hd, hs⟩

/-- Decoding one segment produced by serializing and base64url-encoding a
JSON value recovers the value. -/
theorem decodeSegmentJson_encode (v : Json) :
    decodeSegmentJson (b64UrlEncode (utf8Encode (jsonDumps v))) = some v := by
  have hascii : ∀ c ∈ (jsonDumps v).data, c.toNat < 128 := dumpsChars_ascii v
  have henc : utf8Encode (jsonDumps v) = (jsonDumps v).data.map Char.toNat :=
    utf8Encode_of_ascii _ hascii
  have hbytes : ∀ b ∈ utf8Encode (jsonDumps v), b < 256 := by
    rw [henc]
    exact map_toNat_lt_256 _ hascii
  rw [decodeSegmentJson, b64urlDecode_b64UrlEncode _ hbytes, henc]
  show (match asciiDecodeBytes (List.map Char.toNat (jsonDumps v).data) with
        | none => none
        | some cs => jsonLoads (String.mk cs)) = some v
  rw [asciiDecodeBytes_map_toNat _ hascii]
  show jsonLoads (String.mk (jsonDumps v).data) = some v
  exact jsonLoads_jsonDumps v

theorem splitChars_of_not_mem (sep : Char) (l : List Char) (h : sep ∉ l) :
    splitChars sep l = [l] := by
  induction l with
  | nil => rfl
  | cons c l ih =>
    have hc : ¬ c = sep := fun hcc => h (by simp [hcc])
    rw [splitChars, ih (fun hm => h (by simp [hm]))]
    simp [hc]

theorem splitChars_append_sep (sep : Char) (a b : List Char) (ha : sep ∉ a) :
    splitChars sep (a ++ sep :: b) = a :: splitChars sep b := by
  induction a with
  | nil =>
    rw [List.nil_append, splitChars]
    have : splitChars sep b ≠ [] := by
      cases b with
      | nil => simp [splitChars]
      | cons x xs =>
        rw [splitChars]
        rcases splitChars sep xs with - | -
        · simp
        · simp
          split <;> simp
    rcases hsp : splitChars sep b with - | ⟨h2, t2⟩
    · exact absurd hsp this
    · simp
  | cons c a ih =>
    have hc : ¬ c = sep := fun hcc => ha (by simp [hcc])
    rw [List.cons_append, splitChars, ih (fun hm => ha (by simp [hm]))]
    simp [hc]

/-- Splitting a three-segment dotted string whose segments are dot-free. -/
theorem splitChars_three (a b c : List Char) (hda : '.' ∉ a) (hdb : '.' ∉ b)
    (hdc : '.' ∉ c) :
    splitChars '.' (a ++ '.' :: (b ++ '.' :: c)) = [a, b, c] := by
  rw [splitChars_append_sep '.' a _ hda, splitChars_append_sep '.' b _ hdb,
    splitChars_of_not_mem '.' c hdc]

theorem lookup_map_keyUpdate {α : Type} (k k' : String) (v : α) (h : k' ≠ k)
    (d : List (String × α)) :
    List.lookup k' (d.map (fun e => if e.1 = k then (e.1, v) else e)) = List.lookup k' d := by
  induction d with
  | nil => rfl
  | cons e d ih =>
    obtain ⟨k1, v1⟩ := e
    by_cases hk1 : k1 = k
    · subst hk1
      have hne : (k' == k1) = false := beq_eq_false_iff_ne.mpr h
      have hhead : (if ((k1, v1) : String × α).1 = k1 then (((k1, v1) : String × α).1, v)
          else ((k1, v1) : String × α)) = (k1, v) := by simp
      rw [List.map_cons, hhead]
      simp [List.lookup, hne, ih]
    · by_cases hbeq : k' = k1
      · subst hbeq
        have hhead : (if ((k', v1) : String × α).1 = k then (((k', v1) : String × α).1, v)
            else ((k', v1) : String × α)) = (k', v1) := by simp [hk1]
        rw [List.map_cons, hhead]
        simp [List.lookup]
      · have hne : (k' == k1) = false := beq_eq_false_iff_ne.mpr hbeq
        have hhead : (if ((k1, v1) : String × α).1 = k then (((k1, v1) : String × α).1, v)
            else ((k1, v1) : String × α)) = (k1, v1) := by simp [hk1]
        rw [List.map_cons, hhead]
        simp [List.lookup, hne, ih]

theorem lookup_append_single_ne {α : Type} (k k' : String) (v : α) (h : k' ≠ k)
    (d : List (String × α)) :
    List.lookup k' (d ++ [(k, v)]) = List.lookup k' d := by
  induction d with
  | nil => simp [List.lookup, beq_eq_false_iff_ne.mpr h]
  | cons e d ih =>
    obtain ⟨k1, v1⟩ := e
    cases hbeq : (k' == k1) <;> simp [List.lookup, hbeq, ih]

theorem lookup_dictInsert_ne {α : Type} (d : List (String × α)) (k k' : String) (v : α)
    (h : k' ≠ k) : List.lookup k' (dictInsert d k v) = List.lookup k' d := by
  rw [dictInsert]
  split
  · exact lookup_map_keyUpdate k k' v h d
  · exact lookup_append_single_ne k k' v h d

/-- `d.update(u)` does not change the binding of a key that `u` does not
mention. -/
theorem lookup_pyDictUpdate_ne {α : Type} (u d : List (String × α)) (k' : String)
    (h : ∀ e ∈ u, k' ≠ e.1) : List.lookup k' (pyDictUpdate d u) = List.lookup k' d := by
  induction u generalizing d with
  | nil => rfl
  | cons e u ih =>
    obtain ⟨k1, v1⟩ := e
    rw [show pyDictUpdate d ((k1, v1) :: u) = pyDictUpdate (dictInsert d k1 v1) u from rfl,
      ih (dictInsert d k1 v1) (fun e he => h e (by simp [he])),
      lookup_dictInsert_ne d k1 k' v1 (h (k1, v1) (by simp))]

theorem string_mk_data (s : String) : String.mk s.data = s := rfl

theorem data_append (a b : String) : (a ++ b).data = a.data ++ b.data := String.data_append a b

theorem b64UrlEncode_no_dot (bs : List Nat) (h : ∀ b ∈ bs, b < 256) :
    '.' ∉ (b64UrlEncode bs).data := by
  intro hmem
  have := (b64EncodeChars_facts bs h '.' hmem).2.1
  exact this rfl

theorem utf8EncodeChar_lt_256 (c : Char) : ∀ b ∈ utf8EncodeChar c, b < 256 := by
  intro b hb
  have hv : c.toNat < 0xd800 ∨ (0xe000 ≤ c.toNat ∧ c.toNat < 0x110000) := c.valid
  rw [utf8EncodeChar] at hb
  split at hb <;> [skip; split at hb] <;> [skip; skip; split at hb] <;>
    simp only [List.mem_cons, List.not_mem_nil, or_false] at hb <;> omega

theorem utf8Encode_lt_256 (s : String) : ∀ b ∈ utf8Encode s, b < 256 := by
  intro b hb
  rw [utf8Encode] at hb
  obtain ⟨c, -, hbc⟩ := List.mem_flatMap.mp hb
  exact utf8EncodeChar_lt_256 c b hbc

theorem decode_token_split (st : Settings) (hm : List Nat → List Nat → List Nat)
    (now : Int) (tok : String) (a b c : List Char)
    (hsplit : splitChars '.' tok.data = [a, b, c]) :
    decode_token st hm now tok =
      match asciiEncode (String.mk a ++ "." ++ String.mk b) with
      | none => .error .unicodeEncodeError
      | some signing_input =>
        let expected_signature := hm (utf8Encode st.jwt_secret) signing_input
        match b64urlDecode (String.mk c) with
        | .error _ => .error .binasciiError
        | .ok signature =>
          if signature = expected_signature then
            match decodeSegmentJson (String.mk a), decodeSegmentJson (String.mk b) with
            | some header, some payload =>
              match header with
              | Json.obj hEntries =>
                if jsonEqStr (pyGet hEntries "alg") st.jwt_algorithm then
                  match payload with
                  | Json.obj pEntries =>
                    match pyGet pEntries "exp" with
                    | none => .ok pEntries
                    | some expv =>
                      match pyInt expv with
                      | .error e => .error e
                      | .ok e =>
                        if now ≥ e then .error (.tokenError "Token expired")
                        else .ok pEntries
                  | _ => .error .attributeError
                else .error (.tokenError "Invalid token")
              | _ => .error .attributeError
            | _, _ => .error (.tokenError "Invalid token")
          else .error (.tokenError "Invalid token")
    := by
  unfold decode_token
  rw [hsplit]

theorem b64seg_props (bs : List Nat) (h : ∀ b ∈ bs, b < 256) :
    (∀ c ∈ (b64UrlEncode bs).data, c.toNat < 128) ∧ '.' ∉ (b64UrlEncode bs).data := by
  refine ⟨fun c hc => (b64EncodeChars_facts bs h c hc).1, fun hc => ?_⟩
  exact (b64EncodeChars_facts bs h '.' hc).2.1 rfl

theorem ascii_dot_concat (x y : String) (hx : ∀ c ∈ x.data, c.toNat < 128)
    (hy : ∀ c ∈ y.data, c.toNat < 128) :
    asciiEncode (x ++ "." ++ y) = some ((x ++ "." ++ y).data.map Char.toNat) := by
  apply asciiEncode_of_ascii
  intro c hc
  rw [data_append, data_append] at hc
  rcases List.mem_append.mp hc with hc1 | hc2
  · rcases List.mem_append.mp hc1 with hc3 | hc4
    · exact hx c hc3
    · rw [show ("." : String).data = ['.'] from rfl] at hc4
      simp only [List.mem_cons, List.not_mem_nil, or_false] at hc4
      subst hc4
      decide
  · exact hy c hc2

/-- Decoding a token that `_jwt_encode` produced at the same settings and
HMAC checks out structurally: the result depends only on the payload's
`exp` claim and the clock. -/
theorem decode_token_jwt_encode (st : Settings) (hm : List Nat → List Nat → List Nat)
    (hbytes : ∀ k m, ∀ b ∈ hm k m, b < 256) (now : Int)
    (payload : List (String × Json)) (tok : String)
    (henc : _jwt_encode st hm payload = .ok tok) :
    decode_token st hm now tok =
      match pyGet payload "exp" with
      | none => .ok payload
      | some expv =>
        match pyInt expv with
        | .error e => .error e
        | .ok e =>
          if now ≥ e then .error (.tokenError "Token expired") else .ok payload := by
  by_cases halg : st.jwt_algorithm = "HS256"
  · obtain ⟨hHa, hHd⟩ := b64seg_props (utf8Encode (jsonDumps (Json.obj
      [("alg", Json.str st.jwt_algorithm), ("typ", Json.str "JWT")]))) (utf8Encode_lt_256 _)
    obtain ⟨hPa, hPd⟩ := b64seg_props (utf8Encode (jsonDumps (Json.obj payload)))
      (utf8Encode_lt_256 _)
    have hsig := ascii_dot_concat
      (b64UrlEncode (utf8Encode (jsonDumps (Json.obj
        [("alg", Json.str st.jwt_algorithm), ("typ", Json.str "JWT")]))))
      (b64UrlEncode (utf8Encode (jsonDumps (Json.obj payload)))) hHa hPa
    unfold _jwt_encode at henc
    rw [if_neg (not_not_intro halg)] at henc
    simp only [hsig] at henc
    rw [Except.ok.injEq] at henc
    subst henc
    obtain ⟨hSa, hSd⟩ := b64seg_props (hm (utf8Encode st.jwt_secret)
      (List.map Char.toNat
        ((b64UrlEncode (utf8Encode (jsonDumps (Json.obj
            [("alg", Json.str st.jwt_algorithm), ("typ", Json.str "JWT")])))).data ++
          '.' :: (b64UrlEncode (utf8Encode (jsonDumps (Json.obj payload)))).data)))
      (hbytes _ _)
    have hsig2 : asciiEncode
        (b64UrlEncode (utf8Encode (jsonDumps (Json.obj
          [("alg", Json.str st.jwt_algorithm), ("typ", Json.str "JWT")]))) ++ "." ++
          b64UrlEncode (utf8Encode (jsonDumps (Json.obj payload)))) =
        some (List.map Char.toNat
          ((b64UrlEncode (utf8Encode (jsonDumps (Json.obj
              [("alg", Json.str st.jwt_algorithm), ("typ", Json.str "JWT")])))).data ++
            '.' :: (b64UrlEncode (utf8Encode (jsonDumps (Json.obj payload)))).data)) := by
      rw [hsig]
      congr 1
      simp [data_append]
    rw [decode_token_split st hm now _ _ _ _ (by
      simp only [data_append, show ("." : String).data = ['.'] from rfl,
        List.append_assoc, List.singleton_append]
      exact splitChars_three _ _ _ hHd hPd hSd)]
    rw [string_mk_data, string_mk_data, string_mk_data]
    simp only [hsig2]
    simp only [b64urlDecode_b64UrlEncode _ (hbytes _ _), if_pos rfl]
    simp only [decodeSegmentJson_encode]
    simp only [pyGet, List.lookup, jsonEqStr, beq_self_eq_true, if_true]
  · unfold _jwt_encode at henc
    rw [if_pos halg] at henc
    exact absurd henc (by simp)

/-! ### Supporting lemmas: `str.strip`, dict structure, the validator loop -/
theorem dropWhile_head_false (p : Char → Bool) :
    ∀ (x : List Char) c cs, x.dropWhile p = c :: cs → p c = false := by
  intro x
  induction x with
  | nil => intro c cs h; simp [List.dropWhile] at h
  | cons a t ih =>
    intro c cs h
    rw [List.dropWhile_cons] at h
    by_cases ha : p a
    · rw [if_pos ha] at h
      exact ih c cs h
    · rw [if_neg ha] at h
      cases h
      simpa using ha

theorem dropWhile_dropWhile (p : Char → Bool) (x : List Char) :
    (x.dropWhile p).dropWhile p = x.dropWhile p := by
  cases h : x.dropWhile p with
  | nil => rfl
  | cons c cs =>
    have hc := dropWhile_head_false p x c cs h
    rw [List.dropWhile_cons, if_neg (by simp [hc])]

theorem append_dropWhile_ex (p : Char → Bool) (y : List Char) :
    ∃ u, u ++ y.dropWhile p = y := by
  induction y with
  | nil => exact ⟨[], rfl⟩
  | cons a t ih =>
    by_cases h : p a
    · obtain ⟨u, hu⟩ := ih
      exact ⟨a :: u, by rw [List.dropWhile_cons, if_pos h, List.cons_append, hu]⟩
    · exact ⟨[], by rw [List.dropWhile_cons, if_neg h, List.nil_append]⟩

theorem length_dropWhile_le (p : Char → Bool) (t : List Char) :
    (t.dropWhile p).length ≤ t.length := by
  induction t with
  | nil => simp
  | cons a t ih =>
    rw [List.dropWhile_cons]
    by_cases h : p a
    · rw [if_pos h]
      simp only [List.length_cons]
      omega
    · rw [if_neg h]

theorem dropWhile_fix_of_lead (p : Char → Bool) (x r : List Char)
    (hx : x.dropWhile p = x) (hpre : ∃ u, r ++ u = x) : r.dropWhile p = r := by
  cases r with
  | nil => rfl
  | cons c cs =>
    obtain ⟨u, hu⟩ := hpre
    cases x with
    | nil => simp at hu
    | cons a t =>
      rw [List.cons_append] at hu
      have hca : c = a := (List.cons.injEq c (cs ++ u) a t).mp hu |>.1
      have hpa : p a = false := by
        by_cases h : p a
        · exfalso
          rw [List.dropWhile_cons, if_pos h] at hx
          have := length_dropWhile_le p t
          have := congrArg List.length hx
          simp at this
          omega
        · simpa using h
      rw [List.dropWhile_cons, hca, if_neg (by simp [hpa])]

theorem rstrip_prefix_ex (p : Char → Bool) (x : List Char) :
    ∃ u, ((x.reverse.dropWhile p).reverse) ++ u = x := by
  obtain ⟨u, hu⟩ := append_dropWhile_ex p x.reverse
  refine ⟨u.reverse, ?_⟩
  have := congrArg List.reverse hu
  rw [List.reverse_append, List.reverse_reverse] at this
  exact this

theorem pyStripChars_idem (l : List Char) :
    pyStripChars (pyStripChars l) = pyStripChars l := by
  unfold pyStripChars
  rw [dropWhile_fix_of_lead isPySpace (l.dropWhile isPySpace) _
    (dropWhile_dropWhile isPySpace l) (rstrip_prefix_ex isPySpace _)]
  rw [List.reverse_reverse, dropWhile_dropWhile]

theorem pyStrip_idem (s : String) : pyStrip (pyStrip s) = pyStrip s := by
  unfold pyStrip
  rw [show (String.mk (pyStripChars s.data)).data = pyStripChars s.data from rfl,
    pyStripChars_idem]

theorem mem_dictInsert {α : Type} (d : List (String × α)) (k : String) (v : α)
    (e : String × α) (he : e ∈ dictInsert d k v) : e ∈ d ∨ e = (k, v) := by
  rw [dictInsert] at he
  split at he
  · obtain ⟨x, hx, hxe⟩ := List.mem_map.mp he
    by_cases hk : x.1 = k
    · right
      rw [← hxe, if_pos hk, hk]
    · left
      rw [← hxe, if_neg hk]
      exact hx
  · rcases List.mem_append.mp he with h | h
    · left; exact h
    · right; simpa using h

theorem keys_dictInsert_of_any {α : Type} (d : List (String × α)) (k : String) (v : α)
    (h : d.any (fun e => e.1 = k) = true) :
    (dictInsert d k v).map Prod.fst = d.map Prod.fst := by
  rw [dictInsert, if_pos h, List.map_map]
  apply List.map_congr_left
  intro e _
  by_cases hk : e.1 = k
  · simp [hk]
  · simp [hk]

theorem keys_dictInsert_of_not_any {α : Type} (d : List (String × α)) (k : String) (v : α)
    (h : ¬ d.any (fun e => e.1 = k) = true) :
    (dictInsert d k v).map Prod.fst = d.map Prod.fst ++ [k] := by
  rw [dictInsert, if_neg h, List.map_append]
  rfl

theorem not_any_key_iff {α : Type} (d : List (String × α)) (k : String) :
    (¬ d.any (fun e => e.1 = k) = true) ↔ k ∉ d.map Prod.fst := by
  rw [List.any_eq_true]
  constructor
  · intro h hk
    obtain ⟨x, hx, hxk⟩ := List.mem_map.mp hk
    exact h ⟨x, hx, by simp [hxk]⟩
  · intro h ⟨x, hx, hxk⟩
    exact h (List.mem_map.mpr ⟨x, hx, by simpa using hxk⟩)

theorem dictInsert_fresh {α : Type} (d : List (String × α)) (k : String) (v : α)
    (h : k ∉ d.map Prod.fst) : dictInsert d k v = d ++ [(k, v)] := by
  rw [dictInsert, if_neg ((not_any_key_iff d k).mpr h)]

theorem keys_nodup_dictInsert {α : Type} (d : List (String × α)) (k : String) (v : α)
    (h : (d.map Prod.fst).Nodup) : ((dictInsert d k v).map Prod.fst).Nodup := by
  by_cases hany : d.any (fun e => e.1 = k) = true
  · rw [keys_dictInsert_of_any d k v hany]
    exact h
  · rw [keys_dictInsert_of_not_any d k v hany]
    have hk : k ∉ d.map Prod.fst := (not_any_key_iff d k).mp hany
    simp [List.nodup_append, h, hk]

theorem pyDictOf_keys_nodup {α : Type} (l : List (String × α)) :
    ((pyDictOf l).map Prod.fst).Nodup := by
  rw [pyDictOf]
  suffices h : ∀ acc : List (String × α), (acc.map Prod.fst).Nodup →
      ((l.foldl (fun d e => dictInsert d e.1 e.2) acc).map Prod.fst).Nodup by
    exact h [] (by simp)
  induction l with
  | nil => intro acc hacc; exact hacc
  | cons e l ih =>
    intro acc hacc
    exact ih (dictInsert acc e.1 e.2) (keys_nodup_dictInsert acc e.1 e.2 hacc)

theorem foldl_dictInsert_mem {α : Type} (xs : List (String × α))
    (S : List (String × α)) (hxs : ∀ x ∈ xs, x ∈ S) :
    ∀ acc : List (String × α), (∀ x ∈ acc, x ∈ S) →
    ∀ x ∈ xs.foldl (fun d e => dictInsert d e.1 e.2) acc, x ∈ S := by
  induction xs with
  | nil => exact fun acc hacc x hx => hacc x hx
  | cons e xs ih =>
    intro acc hacc x hx
    refine ih (fun y hy => hxs y (by simp [hy])) (dictInsert acc e.1 e.2) ?_ x hx
    intro y hy
    rcases mem_dictInsert acc e.1 e.2 y hy with h | h
    · exact hacc y h
    · rw [h]
      exact hxs e (by simp)

theorem mem_pyDictOf {α : Type} (l : List (String × α)) (e : String × α)
    (he : e ∈ pyDictOf l) : e ∈ l := by
  rw [pyDictOf] at he
  exact foldl_dictInsert_mem l l (fun x hx => hx) [] (by simp) e he

theorem pyDictOf_loop {α : Type} (rest acc : List (String × α))
    (h : ((acc ++ rest).map Prod.fst).Nodup) :
    rest.foldl (fun d e => dictInsert d e.1 e.2) acc = acc ++ rest := by
  induction rest generalizing acc with
  | nil => simp
  | cons e rest ih =>
    rw [List.foldl_cons]
    have hk : e.1 ∉ acc.map Prod.fst := by
      simp only [List.map_append, List.nodup_append] at h
      intro hmem
      exact h.2.2 hmem (by simp)
    rw [dictInsert_fresh acc e.1 e.2 hk]
    have hperm : ((acc ++ [(e.1, e.2)]) ++ rest).map Prod.fst |>.Nodup := by
      have : (acc ++ [(e.1, e.2)]) ++ rest = acc ++ ((e.1, e.2) :: rest) := by simp
      rw [this]
      simpa using h
    rw [ih (acc ++ [(e.1, e.2)]) hperm]
    simp

theorem pyDictOf_eq_self {α : Type} (l : List (String × α))
    (h : (l.map Prod.fst).Nodup) : pyDictOf l = l := by
  rw [pyDictOf, pyDictOf_loop l [] (by simpa using h)]
  simp

theorem validate_foldl_eq (dateOk tsOk : String → Bool) (mv : List (String × MValue)) :
    ∀ (fds : List (String × FieldDefinition))
      (e0 : List (String × String)) (n0 : List (String × MValue)),
    (fds.map (fun e => e.2.name)).Nodup →
    (∀ k ∈ n0.map Prod.fst, k ∉ fds.map (fun e => e.2.name)) →
    fds.foldl (validateStep dateOk tsOk mv) (e0, n0) =
    (e0 ++ fds.flatMap (errContrib dateOk tsOk mv),
     n0 ++ fds.flatMap (normContrib dateOk tsOk mv)) := by
  intro fds
  induction fds with
  | nil => intro e0 n0 _ _; simp
  | cons e fds ih =>
    intro e0 n0 hnd hdisj
    rw [List.foldl_cons]
    rw [show validateStep dateOk tsOk mv (e0, n0) e =
      (match checkFieldValue dateOk tsOk e.2 (List.lookup e.2.name mv) with
       | .error msg => (e0 ++ [(e.2.name, msg)], n0)
       | .ok none => (e0, n0)
       | .ok (some v) => (e0, dictInsert n0 e.2.name v)) from rfl]
    have hnd2 : (fds.map (fun e => e.2.name)).Nodup := by
      simp only [List.map_cons, List.nodup_cons] at hnd
      exact hnd.2
    have hnamefresh : e.2.name ∉ fds.map (fun e => e.2.name) := by
      simp only [List.map_cons, List.nodup_cons] at hnd
      exact hnd.1
    cases hc : checkFieldValue dateOk tsOk e.2 (List.lookup e.2.name mv) with
    | error msg =>
      rw [ih (e0 ++ [(e.2.name, msg)]) n0 hnd2
        (fun k hk => fun hmem => hdisj k hk (by simp [hmem]))]
      rw [List.flatMap_cons, List.flatMap_cons]
      simp [errContrib, normContrib, hc]
    | ok ov =>
      cases ov with
      | none =>
        rw [ih e0 n0 hnd2 (fun k hk hmem => hdisj k hk (by simp [hmem]))]
        rw [List.flatMap_cons, List.flatMap_cons]
        simp [errContrib, normContrib, hc]
      | some v =>
        have hfresh : e.2.name ∉ n0.map Prod.fst := by
          intro hmem
          exact hdisj e.2.name hmem (by simp)
        rw [show (match Except.ok (some v) with
           | Except.error msg => (e0 ++ [(e.2.name, msg)], n0)
           | Except.ok none => (e0, n0)
           | Except.ok (some v) =>
             (e0, dictInsert n0 e.2.name v) : List (String × String) × List (String × MValue)) =
          (e0, dictInsert n0 e.2.name v) from rfl,
          dictInsert_fresh n0 e.2.name v hfresh]
        rw [ih e0 (n0 ++ [(e.2.name, v)]) hnd2 ?_]
        · rw [List.flatMap_cons, List.flatMap_cons]
          simp [errContrib, normContrib, hc]
        · intro k hk
          rw [List.map_append] at hk
          rcases List.mem_append.mp hk with h | h
          · exact fun hmem => hdisj k h (by simp [hmem])
          · simp only [List.map_cons, List.map_nil, List.mem_singleton] at h
            rw [h]
            exact hnamefresh

theorem fbn_name_inv (fds : List FieldDefinition) :
    ∀ e ∈ pyDictOf (fds.map (fun f => (f.name, f))), e.2.name = e.1 := by
  intro e he
  obtain ⟨f, hf, hfe⟩ := List.mem_map.mp (mem_pyDictOf _ e he)
  rw [← hfe]

theorem fbn_names_nodup (fds : List FieldDefinition) :
    ((pyDictOf (fds.map (fun f => (f.name, f)))).map (fun e => e.2.name)).Nodup := by
  have heq : (pyDictOf (fds.map (fun f => (f.name, f)))).map (fun e => e.2.name) =
      (pyDictOf (fds.map (fun f => (f.name, f)))).map Prod.fst :=
    List.map_congr_left (fun e he => fbn_name_inv fds e he)
  rw [heq]
  exact pyDictOf_keys_nodup _

theorem validate_metadata_eq (dateOk tsOk : String → Bool) (fds : List FieldDefinition)
    (md : Option (List (String × MValue))) :
    validate_metadata dateOk tsOk fds md =
      (let mv := match md with | none => [] | some m => pyDictOf m
       let provided := match md with | none => false | some _ => true
       let fbn := pyDictOf (fds.map (fun f => (f.name, f)))
       let errors := (mv.filter (fun e => (List.lookup e.1 fbn).isNone)).map
           (fun e => (e.1, "Unknown field")) ++ fbn.flatMap (errContrib dateOk tsOk mv)
       if errors.isEmpty then
         if (fbn.flatMap (normContrib dateOk tsOk mv)).isEmpty && !provided then .ok none
         else .ok (some (fbn.flatMap (normContrib dateOk tsOk mv)))
       else .error ⟨"Metadata validation failed", errors⟩) := by
  unfold validate_metadata
  cases md with
  | none =>
    simp only []
    rw [validate_foldl_eq dateOk tsOk [] (pyDictOf (fds.map (fun f => (f.name, f))))
      [] [] (fbn_names_nodup fds) (by simp)]
    simp
  | some m =>
    simp only []
    rw [validate_foldl_eq dateOk tsOk (pyDictOf m) (pyDictOf (fds.map (fun f => (f.name, f))))
      [] [] (fbn_names_nodup fds) (by simp)]
    simp

/-! ### Per-type equations and re-validation facts for `checkFieldValue` -/
theorem cfv_none (dateOk tsOk : String → Bool) (f : FieldDefinition) :
    checkFieldValue dateOk tsOk f none =
      (if f.is_required then .error "Field is required" else .ok none) := rfl

theorem cfv_null (dateOk tsOk : String → Bool) (f : FieldDefinition) :
    checkFieldValue dateOk tsOk f (some MValue.null) =
      (if f.is_required then .error "Field is required" else .ok none) := rfl

theorem cfv_text (dateOk tsOk : String → Bool) (f : FieldDefinition)
    (h : f.field_type = "text") (w : MValue) :
    checkFieldValue dateOk tsOk f (some w) =
      match w with
      | .null => (if f.is_required then .error "Field is required" else .ok none)
      | .strv s =>
        (if f.is_required ∧ pyStrip s = "" then .error "Field is required"
         else .ok (some (.strv (pyStrip s))))
      | _ => .error "Value must be a string" := by
  cases w <;> simp [checkFieldValue, h]

theorem cfv_number (dateOk tsOk : String → Bool) (f : FieldDefinition)
    (h : f.field_type = "number") (w : MValue) :
    checkFieldValue dateOk tsOk f (some w) =
      match w with
      | .null => (if f.is_required then .error "Field is required" else .ok none)
      | .intv n => .ok (some (.intv n))
      | .floatv x => .ok (some (.floatv x))
      | _ => .error "Value must be a number" := by
  cases w <;> simp [checkFieldValue, h]

theorem cfv_date (dateOk tsOk : String → Bool) (f : FieldDefinition)
    (h : f.field_type = "date") (w : MValue) :
    checkFieldValue dateOk tsOk f (some w) =
      match w with
      | .null => (if f.is_required then .error "Field is required" else .ok none)
      | .strv s =>
        (if dateOk (pyStrip s) then .ok (some (.strv (pyStrip s)))
         else .error "Value must be a date (YYYY-MM-DD)")
      | _ => .error "Value must be a date (YYYY-MM-DD)" := by
  cases w <;> simp [checkFieldValue, h]

theorem cfv_timestamp (dateOk tsOk : String → Bool) (f : FieldDefinition)
    (h : f.field_type = "timestamp") (w : MValue) :
    checkFieldValue dateOk tsOk f (some w) =
      match w with
      | .null => (if f.is_required then .error "Field is required" else .ok none)
      | .strv s =>
        (if ¬ ('T' ∈ (pyStrip s).data ∨ ' ' ∈ (pyStrip s).data) then
          .error "Value must be a timestamp (ISO 8601)"
        else if tsOk (if (pyStrip s).data.getLast? = some 'Z' then
            String.mk (pyStrip s).data.dropLast ++ "+00:00" else (pyStrip s)) then
          .ok (some (.strv (pyStrip s)))
        else .error "Value must be a timestamp (ISO 8601)")
      | _ => .error "Value must be a timestamp (ISO 8601)" := by
  cases w <;> simp [checkFieldValue, h]

theorem cfv_checkbox (dateOk tsOk : String → Bool) (f : FieldDefinition)
    (h : f.field_type = "checkbox") (w : MValue) :
    checkFieldValue dateOk tsOk f (some w) =
      match w with
      | .null => (if f.is_required then .error "Field is required" else .ok none)
      | .boolv b => .ok (some (.boolv b))
      | _ => .error "Value must be true or false" := by
  cases w <;> simp [checkFieldValue, h]

theorem cfv_select (dateOk tsOk : String → Bool) (f : FieldDefinition)
    (h : f.field_type = "select") (w : MValue) :
    checkFieldValue dateOk tsOk f (some w) =
      match w with
      | .null => (if f.is_required then .error "Field is required" else .ok none)
      | .strv s =>
        (match List.lookup "options" (f.options.getD []) with
         | none => .error "Select field is missing options"
         | some raw_options =>
           if raw_options.isEmpty then .error "Select field is missing options"
           else if pyStrip s = "" then
             .error ("Value must be one of: " ++ String.intercalate ", " raw_options)
           else if raw_options.contains (pyStrip s) then .ok (some (.strv (pyStrip s)))
           else .error ("Value must be one of: " ++ String.intercalate ", " raw_options))
      | _ => .error "Value must be a string" := by
  cases w <;> (simp [checkFieldValue, h]; try rfl)

theorem cfv_other (dateOk tsOk : String → Bool) (f : FieldDefinition)
    (h1 : ¬ f.field_type = "text") (h2 : ¬ f.field_type = "number")
    (h3 : ¬ f.field_type = "date") (h4 : ¬ f.field_type = "timestamp")
    (h5 : ¬ f.field_type = "checkbox") (h6 : ¬ f.field_type = "select") (w : MValue) :
    checkFieldValue dateOk tsOk f (some w) =
      match w with
      | .null => (if f.is_required then .error "Field is required" else .ok none)
      | _ => .error "Unsupported field type" := by
  cases w <;> simp [checkFieldValue, h1, h2, h3, h4, h5, h6]

theorem checkFieldValue_ok_some (dateOk tsOk : String → Bool) (f : FieldDefinition)
    (ov : Option MValue) (v : MValue)
    (h : checkFieldValue dateOk tsOk f ov = .ok (some v)) :
    checkFieldValue dateOk tsOk f (some v) = .ok (some v) ∧ v ≠ MValue.null := by
  cases ov with
  | none =>
    rw [cfv_none] at h
    split at h <;> simp at h
  | some w =>
    by_cases ht1 : f.field_type = "text"
    · rw [cfv_text dateOk tsOk f ht1] at h
      cases w
      all_goals simp only [] at h
      · split at h <;> simp at h
      · simp at h
      · simp at h
      · simp at h
      · split at h
        · simp at h
        · rename_i hcond
          rw [Except.ok.injEq, Option.some.injEq] at h
          subst h
          refine ⟨?_, by simp⟩
          rw [cfv_text dateOk tsOk f ht1]
          simp only [pyStrip_idem]
          rw [if_neg hcond]
      · simp at h
      · simp at h
    · by_cases ht2 : f.field_type = "number"
      · rw [cfv_number dateOk tsOk f ht2] at h
        cases w
        all_goals simp only [] at h
        · split at h <;> simp at h
        · simp at h
        · rw [Except.ok.injEq, Option.some.injEq] at h
          subst h
          refine ⟨?_, by simp⟩
          rw [cfv_number dateOk tsOk f ht2]
        · rw [Except.ok.injEq, Option.some.injEq] at h
          subst h
          refine ⟨?_, by simp⟩
          rw [cfv_number dateOk tsOk f ht2]
        · simp at h
        · simp at h
        · simp at h
      · by_cases ht3 : f.field_type = "date"
        · rw [cfv_date dateOk tsOk f ht3] at h
          cases w
          all_goals simp only [] at h
          · split at h <;> simp at h
          · simp at h
          · simp at h
          · simp at h
          · split at h
            · rename_i hcond
              rw [Except.ok.injEq, Option.some.injEq] at h
              subst h
              refine ⟨?_, by simp⟩
              rw [cfv_date dateOk tsOk f ht3]
              simp only [pyStrip_idem]
              rw [if_pos hcond]
            · simp at h
          · simp at h
          · simp at h
        · by_cases ht4 : f.field_type = "timestamp"
          · rw [cfv_timestamp dateOk tsOk f ht4] at h
            cases w
            all_goals simp only [] at h
            · split at h <;> simp at h
            · simp at h
            · simp at h
            · simp at h
            · rename_i s
              split at h
              · simp at h
              · rename_i hcond1
                generalize hadj : (if (pyStrip s).data.getLast? = some 'Z' then
                    String.mk (pyStrip s).data.dropLast ++ "+00:00" else pyStrip s) = adj at h
                split at h
                · rename_i hcond2
                  rw [Except.ok.injEq, Option.some.injEq] at h
                  subst h
                  refine ⟨?_, by simp⟩
                  rw [cfv_timestamp dateOk tsOk f ht4]
                  simp only [pyStrip_idem]
                  rw [if_neg hcond1, hadj, if_pos hcond2]
                · simp at h
            · simp at h
            · simp at h
          · by_cases ht5 : f.field_type = "checkbox"
            · rw [cfv_checkbox dateOk tsOk f ht5] at h
              cases w
              all_goals simp only [] at h
              · split at h <;> simp at h
              · rw [Except.ok.injEq, Option.some.injEq] at h
                subst h
                refine ⟨?_, by simp⟩
                rw [cfv_checkbox dateOk tsOk f ht5]
              · simp at h
              · simp at h
              · simp at h
              · simp at h
              · simp at h
            · by_cases ht6 : f.field_type = "select"
              · rw [cfv_select dateOk tsOk f ht6] at h
                cases w
                all_goals simp only [] at h
                · split at h <;> simp at h
                · simp at h
                · simp at h
                · simp at h
                · rename_i s
                  rcases hopt : List.lookup "options" (f.options.getD []) with - | raw
                  · rw [hopt] at h
                    simp at h
                  · rw [hopt] at h
                    simp only [] at h
                    split at h
                    · simp at h
                    · rename_i hne
                      split at h
                      · simp at h
                      · rename_i hblank
                        split at h
                        · rename_i hmem
                          rw [Except.ok.injEq, Option.some.injEq] at h
                          subst h
                          refine ⟨?_, by simp⟩
                          rw [cfv_select dateOk tsOk f ht6]
                          simp only [pyStrip_idem, hopt]
                          rw [if_neg hne, if_neg hblank, if_pos hmem]
                        · simp at h
                · simp at h
                · simp at h
              · rw [cfv_other dateOk tsOk f ht1 ht2 ht3 ht4 ht5 ht6] at h
                cases w
                all_goals simp only [] at h
                · split at h <;> simp at h
                · simp at h
                · simp at h
                · simp at h
                · simp at h
                · simp at h
                · simp at h

theorem checkFieldValue_ok_none (dateOk tsOk : String → Bool) (f : FieldDefinition)
    (ov : Option MValue) (h : checkFieldValue dateOk tsOk f ov = .ok none) :
    f.is_required = false := by
  cases ov with
  | none =>
    rw [cfv_none] at h
    split at h
    · simp at h
    · rename_i hr
      simpa using hr
  | some w =>
    by_cases ht1 : f.field_type = "text"
    · rw [cfv_text dateOk tsOk f ht1] at h
      cases w
      all_goals simp only [] at h
      · split at h
        · simp at h
        · rename_i hr
          simpa using hr
      · simp at h
      · simp at h
      · simp at h
      · split at h <;> simp at h
      · simp at h
      · simp at h
    · by_cases ht2 : f.field_type = "number"
      · rw [cfv_number dateOk tsOk f ht2] at h
        cases w
        all_goals simp only [] at h
        · split at h
          · simp at h
          · rename_i hr
            simpa using hr
        · simp at h
        · simp at h
        · simp at h
        · simp at h
        · simp at h
        · simp at h
      · by_cases ht3 : f.field_type = "date"
        · rw [cfv_date dateOk tsOk f ht3] at h
          cases w
          all_goals simp only [] at h
          · split at h
            · simp at h
            · rename_i hr
              simpa using hr
          · simp at h
          · simp at h
          · simp at h
          · split at h <;> simp at h
          · simp at h
          · simp at h
        · by_cases ht4 : f.field_type = "timestamp"
          · rw [cfv_timestamp dateOk tsOk f ht4] at h
            cases w
            all_goals simp only [] at h
            · split at h
              · simp at h
              · rename_i hr
                simpa using hr
            · simp at h
            · simp at h
            · simp at h
            · split at h
              · simp at h
              · split at h <;> split at h <;> simp at h
            · simp at h
            · simp at h
          · by_cases ht5 : f.field_type = "checkbox"
            · rw [cfv_checkbox dateOk tsOk f ht5] at h
              cases w
              all_goals simp only [] at h
              · split at h
                · simp at h
                · rename_i hr
                  simpa using hr
              · simp at h
              · simp at h
              · simp at h
              · simp at h
              · simp at h
              · simp at h
            · by_cases ht6 : f.field_type = "select"
              · rw [cfv_select dateOk tsOk f ht6] at h
                cases w
                all_goals simp only [] at h
                · split at h
                  · simp at h
                  · rename_i hr
                    simpa using hr
                · simp at h
                · simp at h
                · simp at h
                · rcases hopt : List.lookup "options" (f.options.getD []) with - | raw
                  · rw [hopt] at h
                    simp at h
                  · rw [hopt] at h
                    simp only [] at h
                    split at h
                    · simp at h
                    · split at h
                      · simp at h
                      · split at h <;> simp at h
                · simp at h
                · simp at h
              · rw [cfv_other dateOk tsOk f ht1 ht2 ht3 ht4 ht5 ht6] at h
                cases w
                all_goals simp only [] at h
                · split at h
                  · simp at h
                  · rename_i hr
                    simpa using hr
                · simp at h
                · simp at h
                · simp at h
                · simp at h
                · simp at h
                · simp at h

theorem lookup_none_iff {α : Type} (k : String) (d : List (String × α)) :
    List.lookup k d = none ↔ k ∉ d.map Prod.fst := by
  induction d with
  | nil => simp
  | cons e d ih =>
    rw [List.lookup]
    cases hbeq : k == e.1
    · have hne : k ≠ e.1 := by simpa using hbeq
      simp only []
      rw [ih]
      simp [hne]
    · have hk : k = e.1 := by simpa using hbeq
      simp [hk]

theorem normContrib_error (dateOk tsOk : String → Bool) (mv : List (String × MValue))
    (e : String × FieldDefinition) (m : String)
    (hc : checkFieldValue dateOk tsOk e.2 (List.lookup e.2.name mv) = .error m) :
    normContrib dateOk tsOk mv e = [] := by
  rw [normContrib, hc]

theorem normContrib_ok_none (dateOk tsOk : String → Bool) (mv : List (String × MValue))
    (e : String × FieldDefinition)
    (hc : checkFieldValue dateOk tsOk e.2 (List.lookup e.2.name mv) = .ok none) :
    normContrib dateOk tsOk mv e = [] := by
  rw [normContrib, hc]

theorem normContrib_ok_some (dateOk tsOk : String → Bool) (mv : List (String × MValue))
    (e : String × FieldDefinition) (v : MValue)
    (hc : checkFieldValue dateOk tsOk e.2 (List.lookup e.2.name mv) = .ok (some v)) :
    normContrib dateOk tsOk mv e = [(e.2.name, v)] := by
  rw [normContrib, hc]

theorem errContrib_eq_nil (dateOk tsOk : String → Bool) (mv : List (String × MValue))
    (e : String × FieldDefinition)
    (hc : errContrib dateOk tsOk mv e = []) :
    ∃ ov, checkFieldValue dateOk tsOk e.2 (List.lookup e.2.name mv) = .ok ov := by
  rw [errContrib] at hc
  rcases h : checkFieldValue dateOk tsOk e.2 (List.lookup e.2.name mv) with m | ov
  · rw [h] at hc
    simp at hc
  · exact ⟨ov, rfl⟩

theorem norm_keys_sublist (dateOk tsOk : String → Bool) (mv : List (String × MValue))
    (fbn : List (String × FieldDefinition)) :
    ((fbn.flatMap (normContrib dateOk tsOk mv)).map Prod.fst).Sublist
      (fbn.map (fun e => e.2.name)) := by
  induction fbn with
  | nil => simp
  | cons e fbn ih =>
    rw [List.flatMap_cons, List.map_append, List.map_cons]
    rcases hc : checkFieldValue dateOk tsOk e.2 (List.lookup e.2.name mv) with m | ov
    · rw [normContrib_error dateOk tsOk mv e m hc, List.map_nil, List.nil_append]
      exact List.Sublist.cons _ ih
    · cases ov with
      | none =>
        rw [normContrib_ok_none dateOk tsOk mv e hc, List.map_nil, List.nil_append]
        exact List.Sublist.cons _ ih
      | some v =>
        rw [normContrib_ok_some dateOk tsOk mv e v hc]
        exact List.Sublist.cons₂ _ ih

theorem lookup_cons_ne {α : Type} (k k2 : String) (v : α) (d : List (String × α))
    (h : k ≠ k2) : List.lookup k ((k2, v) :: d) = List.lookup k d := by
  rw [List.lookup]
  cases hbeq : k == k2
  · rfl
  · exact absurd (by simpa using hbeq) h

theorem lookup_cons_self {α : Type} (k : String) (v : α) (d : List (String × α)) :
    List.lookup k ((k, v) :: d) = some v := by
  rw [List.lookup, beq_self_eq_true]

theorem lookup_normOf (dateOk tsOk : String → Bool) (mv : List (String × MValue)) :
    ∀ (fbn : List (String × FieldDefinition)),
    (fbn.map (fun e => e.2.name)).Nodup →
    ∀ e ∈ fbn,
    List.lookup e.2.name (fbn.flatMap (normContrib dateOk tsOk mv)) =
      (match checkFieldValue dateOk tsOk e.2 (List.lookup e.2.name mv) with
       | .ok (some v) => some v
       | _ => none) := by
  intro fbn
  induction fbn with
  | nil => intro _ e he; simp at he
  | cons e0 fbn ih =>
    intro hnd e he
    have hnd2 : (fbn.map (fun e => e.2.name)).Nodup := by
      simp only [List.map_cons, List.nodup_cons] at hnd
      exact hnd.2
    have hfresh : e0.2.name ∉ fbn.map (fun e => e.2.name) := by
      simp only [List.map_cons, List.nodup_cons] at hnd
      exact hnd.1
    rw [List.flatMap_cons]
    rcases List.mem_cons.mp he with rfl | hmem
    · have hrest : List.lookup e.2.name (fbn.flatMap (normContrib dateOk tsOk mv)) = none := by
        rw [lookup_none_iff]
        intro hk
        exact hfresh (List.Sublist.mem hk (norm_keys_sublist dateOk tsOk mv fbn))
      rcases hc : checkFieldValue dateOk tsOk e.2 (List.lookup e.2.name mv) with m | ov
      · rw [normContrib_error dateOk tsOk mv e m hc, List.nil_append, hrest]
      · cases ov with
        | none => rw [normContrib_ok_none dateOk tsOk mv e hc, List.nil_append, hrest]
        | some v =>
          rw [normContrib_ok_some dateOk tsOk mv e v hc, List.cons_append,
            lookup_cons_self]
    · have hne : e.2.name ≠ e0.2.name := by
        intro heq
        exact hfresh (heq ▸ List.mem_map.mpr ⟨e, hmem, rfl⟩)
      have hskip : List.lookup e.2.name
          (normContrib dateOk tsOk mv e0 ++ fbn.flatMap (normContrib dateOk tsOk mv)) =
          List.lookup e.2.name (fbn.flatMap (normContrib dateOk tsOk mv)) := by
        rcases hc : checkFieldValue dateOk tsOk e0.2 (List.lookup e0.2.name mv) with m | ov
        · rw [normContrib_error dateOk tsOk mv e0 m hc, List.nil_append]
        · cases ov with
          | none => rw [normContrib_ok_none dateOk tsOk mv e0 hc, List.nil_append]
          | some v =>
            rw [normContrib_ok_some dateOk tsOk mv e0 v hc, List.cons_append,
              lookup_cons_ne _ _ _ _ hne, List.nil_append]
      rw [hskip]
      exact ih hnd2 e hmem

theorem flatMap_nil_of_all {α β : Type} (l : List α) (f : α → List β)
    (h : ∀ x ∈ l, f x = []) : l.flatMap f = [] := by
  induction l with
  | nil => rfl
  | cons a l ih =>
    rw [List.flatMap_cons, h a (by simp), List.nil_append]
    exact ih (fun x hx => h x (by simp [hx]))

theorem flatMap_all_nil {α β : Type} (l : List α) (f : α → List β)
    (h : l.flatMap f = []) : ∀ x ∈ l, f x = [] := by
  induction l with
  | nil => simp
  | cons a l ih =>
    rw [List.flatMap_cons, List.append_eq_nil] at h
    intro x hx
    rcases List.mem_cons.mp hx with rfl | hx2
    · exact h.1
    · exact ih h.2 x hx2

theorem normContrib_empty_doc (dateOk tsOk : String → Bool)
    (e : String × FieldDefinition) : normContrib dateOk tsOk [] e = [] := by
  rw [normContrib, show List.lookup e.2.name ([] : List (String × MValue)) = none from rfl,
    cfv_none]
  by_cases hr : e.2.is_required
  · rw [if_pos hr]
  · rw [if_neg hr]

theorem flatMap_congr_mem {α β : Type} (l : List α) (f g : α → List β)
    (h : ∀ x ∈ l, f x = g x) : l.flatMap f = l.flatMap g := by
  induction l with
  | nil => rfl
  | cons a l ih =>
    rw [List.flatMap_cons, List.flatMap_cons, h a (by simp),
      ih (fun x hx => h x (by simp [hx]))]

theorem mem_normContrib (dateOk tsOk : String → Bool) (mv : List (String × MValue))
    (e : String × FieldDefinition) (x : String × MValue)
    (he : x ∈ normContrib dateOk tsOk mv e) :
    ∃ v, checkFieldValue dateOk tsOk e.2 (List.lookup e.2.name mv) = .ok (some v) ∧
      x = (e.2.name, v) := by
  rcases hc : checkFieldValue dateOk tsOk e.2 (List.lookup e.2.name mv) with m | ov
  · rw [normContrib_error dateOk tsOk mv e m hc] at he
    simp at he
  · cases ov with
    | none =>
      rw [normContrib_ok_none dateOk tsOk mv e hc] at he
      simp at he
    | some v =>
      rw [normContrib_ok_some dateOk tsOk mv e v hc] at he
      simp only [List.mem_singleton] at he
      exact ⟨v, rfl, he⟩

/-- C6: validation idempotence.  Re-validating a result of a successful
validation against the same field list succeeds and returns the same
normalized result: `validate(fields, validate(fields, doc))` equals
`validate(fields, doc)`. -/
theorem validate_metadata_idem (dateOk tsOk : String → Bool)
    (fds : List FieldDefinition) (md : Option (List (String × MValue)))
    (r : Option (List (String × MValue)))
    (h : validate_metadata dateOk tsOk fds md = .ok r) :
    validate_metadata dateOk tsOk fds r = .ok r := by
  have h0 := h
  rw [validate_metadata_eq] at h
  simp only [] at h
  cases md with
  | none =>
    split at h
    · split at h
      · rw [Except.ok.injEq] at h
        subst h
        exact h0
      · rename_i hcond
        exfalso
        apply hcond
        rw [flatMap_nil_of_all _ _ (fun e _ => normContrib_empty_doc dateOk tsOk e)]
        rfl
    · simp at h
  | some mv =>
    split at h
    · rename_i herr
      rw [if_neg (by simp)] at h
      rw [Except.ok.injEq] at h
      subst h
      -- names
      have hnodup := fbn_names_nodup fds
      have hkeysnd : (((pyDictOf (fds.map (fun f => (f.name, f)))).flatMap
          (normContrib dateOk tsOk (pyDictOf mv))).map Prod.fst).Nodup :=
        (norm_keys_sublist dateOk tsOk (pyDictOf mv) _).nodup hnodup
      have hself := pyDictOf_eq_self _ hkeysnd
      have herr2 : ((pyDictOf mv).filter (fun e =>
          (List.lookup e.1 (pyDictOf (fds.map (fun f => (f.name, f))))).isNone)).map
          (fun e => (e.1, "Unknown field")) = [] ∧
          (pyDictOf (fds.map (fun f => (f.name, f)))).flatMap
            (errContrib dateOk tsOk (pyDictOf mv)) = [] := by
        rw [List.isEmpty_iff, List.append_eq_nil] at herr
        exact herr
      have hok : ∀ e ∈ pyDictOf (fds.map (fun f => (f.name, f))),
          ∃ ov, checkFieldValue dateOk tsOk e.2 (List.lookup e.2.name (pyDictOf mv)) =
            .ok ov :=
        fun e he => errContrib_eq_nil dateOk tsOk (pyDictOf mv) e
          (flatMap_all_nil _ _ herr2.2 e he)
      -- per-field recheck facts
      have hfield : ∀ e ∈ pyDictOf (fds.map (fun f => (f.name, f))),
          (errContrib dateOk tsOk ((pyDictOf (fds.map (fun f => (f.name, f)))).flatMap
            (normContrib dateOk tsOk (pyDictOf mv))) e = []) ∧
          (normContrib dateOk tsOk ((pyDictOf (fds.map (fun f => (f.name, f)))).flatMap
            (normContrib dateOk tsOk (pyDictOf mv))) e =
           normContrib dateOk tsOk (pyDictOf mv) e) := by
        intro e he
        obtain ⟨ov, hov⟩ := hok e he
        have hlk := lookup_normOf dateOk tsOk (pyDictOf mv) _ hnodup e he
        cases ov with
        | none =>
          rw [hov] at hlk
          simp only [] at hlk
          have hreq := checkFieldValue_ok_none dateOk tsOk e.2 _ hov
          have hnone : checkFieldValue dateOk tsOk e.2 (none : Option MValue) = .ok none := by
            rw [cfv_none, hreq]
            rfl
          constructor
          · rw [errContrib, hlk, hnone]
          · rw [normContrib, hlk, hnone, normContrib_ok_none dateOk tsOk (pyDictOf mv) e hov]
        | some v =>
          rw [hov] at hlk
          simp only [] at hlk
          have hre := (checkFieldValue_ok_some dateOk tsOk e.2 _ v hov).1
          constructor
          · rw [errContrib, hlk, hre]
          · rw [normContrib, hlk, hre,
              normContrib_ok_some dateOk tsOk (pyDictOf mv) e v hov]
      -- assemble
      rw [validate_metadata_eq]
      simp only []
      rw [hself]
      have hunk : ((pyDictOf (fds.map (fun f => (f.name, f)))).flatMap
          (normContrib dateOk tsOk (pyDictOf mv))).filter (fun e =>
          (List.lookup e.1 (pyDictOf (fds.map (fun f => (f.name, f))))).isNone) = [] := by
        rw [List.filter_eq_nil_iff]
        intro x hx
        obtain ⟨e0, he0, hx0⟩ := List.mem_flatMap.mp hx
        obtain ⟨v, hv, rfl⟩ := mem_normContrib dateOk tsOk (pyDictOf mv) e0 x hx0
        have hname := fbn_name_inv fds e0 he0
        have hmem : (e0.2.name, v).1 ∈ (pyDictOf (fds.map (fun f => (f.name, f)))).map
            Prod.fst := by
          rw [show ((e0.2.name, v)).1 = e0.2.name from rfl, hname]
          exact List.mem_map.mpr ⟨e0, he0, rfl⟩
        rcases hl : List.lookup ((e0.2.name, v)).1
            (pyDictOf (fds.map (fun f => (f.name, f)))) with - | f0
        · exact absurd ((lookup_none_iff _ _).mp hl) (by simpa using hmem)
        · simp [hl]
      rw [hunk]
      have herrflat : (pyDictOf (fds.map (fun f => (f.name, f)))).flatMap
          (errContrib dateOk tsOk ((pyDictOf (fds.map (fun f => (f.name, f)))).flatMap
            (normContrib dateOk tsOk (pyDictOf mv)))) = [] :=
        flatMap_nil_of_all _ _ (fun e he => (hfield e he).1)
      rw [herrflat]
      have hnormflat : (pyDictOf (fds.map (fun f => (f.name, f)))).flatMap
          (normContrib dateOk tsOk ((pyDictOf (fds.map (fun f => (f.name, f)))).flatMap
            (normContrib dateOk tsOk (pyDictOf mv)))) =
          (pyDictOf (fds.map (fun f => (f.name, f)))).flatMap
            (normContrib dateOk tsOk (pyDictOf mv)) :=
        flatMap_congr_mem _ _ _ (fun e he => (hfield e he).2)
      rw [hnormflat]
      simp
    · simp at h

/-! ### Error-list completeness, normalized-output invariant, filter tokens -/
theorem errContrib_error (dateOk tsOk : String → Bool) (mv : List (String × MValue))
    (e : String × FieldDefinition) (m : String)
    (hc : checkFieldValue dateOk tsOk e.2 (List.lookup e.2.name mv) = .error m) :
    errContrib dateOk tsOk mv e = [(e.2.name, m)] := by
  rw [errContrib, hc]

theorem map_fst_fields (fds : List FieldDefinition) :
    (fds.map (fun f => (f.name, f))).map Prod.fst = fds.map FieldDefinition.name := by
  rw [List.map_map]
  rfl

theorem fbn_self (fds : List FieldDefinition)
    (hnd : (fds.map FieldDefinition.name).Nodup) :
    pyDictOf (fds.map (fun f => (f.name, f))) = fds.map (fun f => (f.name, f)) :=
  pyDictOf_eq_self _ (by rw [map_fst_fields]; exact hnd)

/-- Every field-level violation surfaces in the raised error list: if the
per-field check of a field in the list fails, `validate_metadata` raises
`MetadataValidationError` whose list names that field with that message. -/
theorem validate_error_complete (dateOk tsOk : String → Bool)
    (fds : List FieldDefinition) (mv : List (String × MValue))
    (hnd : (fds.map FieldDefinition.name).Nodup)
    (A : FieldDefinition) (hA : A ∈ fds) (msgA : String)
    (hAerr : checkFieldValue dateOk tsOk A (List.lookup A.name (pyDictOf mv)) =
      .error msgA) :
    ∃ errs, validate_metadata dateOk tsOk fds (some mv) =
      .error ⟨"Metadata validation failed", errs⟩ ∧ (A.name, msgA) ∈ errs := by
  rw [validate_metadata_eq]
  simp only []
  rw [fbn_self fds hnd]
  have hmem : (A.name, msgA) ∈ (fds.map (fun f => (f.name, f))).flatMap
      (errContrib dateOk tsOk (pyDictOf mv)) := by
    refine List.mem_flatMap.mpr ⟨(A.name, A), List.mem_map.mpr ⟨A, hA, rfl⟩, ?_⟩
    rw [errContrib_error dateOk tsOk (pyDictOf mv) (A.name, A) msgA hAerr]
    simp
  have hmem2 : (A.name, msgA) ∈ ((pyDictOf mv).filter (fun e =>
      (List.lookup e.1 (fds.map (fun f => (f.name, f)))).isNone)).map
      (fun e => (e.1, "Unknown field")) ++ (fds.map (fun f => (f.name, f))).flatMap
      (errContrib dateOk tsOk (pyDictOf mv)) := List.mem_append.mpr (Or.inr hmem)
  rw [if_neg (by
    intro hempty
    rw [List.isEmpty_iff] at hempty
    rw [hempty] at hmem2
    simp at hmem2)]
  exact ⟨_, rfl, hmem2⟩

/-- Every entry of a normalized document names a supplied field and holds a
non-null value. -/
theorem norm_entry_inv (dateOk tsOk : String → Bool) (mv : List (String × MValue))
    (fds : List FieldDefinition) :
    ∀ x ∈ (pyDictOf (fds.map (fun f => (f.name, f)))).flatMap
      (normContrib dateOk tsOk mv),
    (∃ f ∈ fds, f.name = x.1) ∧ x.2 ≠ MValue.null := by
  intro x hx
  obtain ⟨e0, he0, hx0⟩ := List.mem_flatMap.mp hx
  obtain ⟨v, hv, rfl⟩ := mem_normContrib dateOk tsOk mv e0 x hx0
  obtain ⟨f, hf, hfe⟩ := List.mem_map.mp (mem_pyDictOf _ e0 he0)
  refine ⟨⟨f, hf, ?_⟩, (checkFieldValue_ok_some dateOk tsOk e0.2 _ v hv).2⟩
  rw [← hfe]

theorem validate_ok_some_shape (dateOk tsOk : String → Bool)
    (fds : List FieldDefinition) (md : Option (List (String × MValue)))
    (m : List (String × MValue))
    (h : validate_metadata dateOk tsOk fds md = .ok (some m)) :
    ∃ mv, m = (pyDictOf (fds.map (fun f => (f.name, f)))).flatMap
      (normContrib dateOk tsOk mv) := by
  rw [validate_metadata_eq] at h
  simp only [] at h
  cases md with
  | none =>
    split at h
    · split at h
      · simp at h
      · rw [Except.ok.injEq, Option.some.injEq] at h
        exact ⟨[], h.symm⟩
    · simp at h
  | some mv =>
    split at h
    · split at h
      · simp at h
      · rw [Except.ok.injEq, Option.some.injEq] at h
        exact ⟨pyDictOf mv, h.symm⟩
    · simp at h

theorem takeWhile_append_sep (sep : Char) (a b : List Char) (ha : sep ∉ a) :
    (a ++ sep :: b).takeWhile (· ≠ sep) = a := by
  induction a with
  | nil => simp [List.takeWhile_cons]
  | cons c a ih =>
    have hc : c ≠ sep := fun h => ha (by simp [h])
    rw [List.cons_append, List.takeWhile_cons, if_pos (by simpa using hc),
      ih (fun h => ha (by simp [h]))]

theorem dropWhile_append_sep (sep : Char) (a b : List Char) (ha : sep ∉ a) :
    (a ++ sep :: b).dropWhile (· ≠ sep) = sep :: b := by
  induction a with
  | nil => simp [List.dropWhile_cons]
  | cons c a ih =>
    have hc : c ≠ sep := fun h => ha (by simp [h])
    rw [List.cons_append, List.dropWhile_cons, if_pos (by simpa using hc),
      ih (fun h => ha (by simp [h]))]

theorem splitCharsN_one (sep : Char) (a b : List Char) (ha : sep ∉ a) :
    splitCharsN sep 1 (a ++ sep :: b) = [a, b] := by
  rw [splitCharsN, takeWhile_append_sep sep a b ha, dropWhile_append_sep sep a b ha]
  rfl

theorem filter_no_equals (pyFloat : String → Option Int) (dateOk tsOk : String → Bool)
    (fbn : List (String × FieldDefinition)) (t : String) (h : '=' ∉ t.data) :
    _parse_filter_token pyFloat dateOk tsOk fbn t =
      .error "Filter must be in the format \x27Field=Value\x27" := by
  unfold _parse_filter_token
  rw [if_pos h]

theorem filter_blank_name (pyFloat : String → Option Int) (dateOk tsOk : String → Bool)
    (fbn : List (String × FieldDefinition)) (n v : List Char) (hn : '=' ∉ n)
    (hb : pyStrip (String.mk n) = "") :
    _parse_filter_token pyFloat dateOk tsOk fbn (String.mk (n ++ '=' :: v)) =
      .error "Filter field name cannot be blank" := by
  unfold _parse_filter_token
  have hm : '=' ∈ (String.mk (n ++ '=' :: v)).data := by simp
  rw [if_neg (not_not_intro hm),
    show (String.mk (n ++ '=' :: v)).data = n ++ '=' :: v from rfl,
    splitCharsN_one '=' n v hn]
  simp [hb]

theorem filter_unknown_field (pyFloat : String → Option Int) (dateOk tsOk : String → Bool)
    (fbn : List (String × FieldDefinition)) (n v : List Char) (hn : '=' ∉ n)
    (hb : ¬ pyStrip (String.mk n) = "")
    (hlk : List.lookup (pyStrip (String.mk n)) fbn = none) :
    _parse_filter_token pyFloat dateOk tsOk fbn (String.mk (n ++ '=' :: v)) =
      .error ("Unknown metadata field \x27" ++ pyStrip (String.mk n) ++ "\x27") := by
  unfold _parse_filter_token
  have hm : '=' ∈ (String.mk (n ++ '=' :: v)).data := by simp
  rw [if_neg (not_not_intro hm),
    show (String.mk (n ++ '=' :: v)).data = n ++ '=' :: v from rfl,
    splitCharsN_one '=' n v hn]
  simp only []
  rw [if_neg hb, hlk]

theorem hmacEx_bytes : ∀ k m, ∀ b ∈ hmacEx k m, b < 256 := by
  intro k m b hb
  simp only [hmacEx, List.mem_singleton] at hb
  subst hb
  exact Nat.mod_lt _ (by omega)

theorem pbkdf2Ex_bytes : ∀ pw s i, ∀ b ∈ pbkdf2Ex pw s i, b < 256 := by
  intro pw s i b hb
  simp only [pbkdf2Ex, List.mem_singleton] at hb
  subst hb
  exact Nat.mod_lt _ (by omega)

/-- The round trip core: decoding a freshly issued token at the issuing
settings recovers the built payload and its `sub`/`type` claims, as long as
the extra claims leave `sub`, `type` and `exp` alone. -/
theorem roundtrip_core (st : Settings) (hm : List Nat → List Nat → List Nat)
    (hbytes : ∀ k m, ∀ b ∈ hm k m, b < 256)
    (now : Int) (s : String) (t : Int) (ht : 0 < t)
    (extra : List (String × Json))
    (hextra : ∀ e ∈ extra, e.1 ≠ "sub" ∧ e.1 ≠ "type" ∧ e.1 ≠ "exp")
    (tt : String) (tok : String)
    (henc : _jwt_encode st hm (_build_token_payload st now s tt (some t) extra) = .ok tok) :
    ∃ claims, decode_token st hm now tok = .ok claims ∧
      List.lookup "sub" claims = some (Json.str s) ∧
      List.lookup "type" claims = some (Json.str tt) := by
  have hdec := decode_token_jwt_encode st hm hbytes now _ tok henc
  have hbase : _build_token_payload st now s tt (some t) extra =
      pyDictUpdate [("sub", Json.str s), ("type", Json.str tt),
        ("iat", Json.num now), ("exp", Json.num (now + t))] extra := rfl
  have hexp : List.lookup "exp" (_build_token_payload st now s tt (some t) extra) =
      some (Json.num (now + t)) := by
    rw [hbase, lookup_pyDictUpdate_ne extra _ "exp"
      (fun e he => ((hextra e he).2.2).symm)]
    rfl
  have hget : pyGet (_build_token_payload st now s tt (some t) extra) "exp" =
      some (Json.num (now + t)) := by
    rw [pyGet, hexp]
  rw [hget] at hdec
  simp only [pyInt] at hdec
  rw [if_neg (by omega)] at hdec
  refine ⟨_, hdec, ?_, ?_⟩
  · rw [hbase, lookup_pyDictUpdate_ne extra _ "sub"
      (fun e he => ((hextra e he).1).symm)]
    rfl
  · rw [hbase, lookup_pyDictUpdate_ne extra _ "type"
      (fun e he => ((hextra e he).2.1).symm)]
    rfl

/-- C1 (amended): token round-trip integrity holds for extra-claims maps
that do not touch the reserved `sub`, `type` and `exp` claims: with the
configured algorithm HS256, decoding a token issued by
`create_access_token` / `create_refresh_token` succeeds and returns `sub`
equal to the subject and `type` equal to the token kind. -/
theorem token_roundtrip_no_reserved_extras (st : Settings)
    (hm : List Nat → List Nat → List Nat)
    (hbytes : ∀ k m, ∀ b ∈ hm k m, b < 256)
    (now : Int) (s : String) (t : Int) (ht : 0 < t)
    (extra : List (String × Json))
    (hextra : ∀ e ∈ extra, e.1 ≠ "sub" ∧ e.1 ≠ "type" ∧ e.1 ≠ "exp") :
    (∀ tok, create_access_token st hm now s (some t) extra = .ok tok →
      ∃ claims, decode_token st hm now tok = .ok claims ∧
        List.lookup "sub" claims = some (Json.str s) ∧
        List.lookup "type" claims = some (Json.str "access")) ∧
    (∀ tok, create_refresh_token st hm now s t extra = .ok tok →
      ∃ claims, decode_token st hm now tok = .ok claims ∧
        List.lookup "sub" claims = some (Json.str s) ∧
        List.lookup "type" claims = some (Json.str "refresh")) := by
  constructor
  · intro tok henc
    exact roundtrip_core st hm hbytes now s t ht extra hextra "access" tok henc
  · intro tok henc
    exact roundtrip_core st hm hbytes now s t ht extra hextra "refresh" tok henc

set_option maxRecDepth 10000 in
/-- C1 witness: a concrete issue/decode round trip through the amended
theorem. -/
theorem token_roundtrip_no_reserved_extras_witness :
    ∃ tok, create_access_token stEx hmacEx 0 "alice" (some 60) [] = .ok tok ∧
      ∃ claims, decode_token stEx hmacEx 0 tok = .ok claims ∧
        List.lookup "sub" claims = some (Json.str "alice") ∧
        List.lookup "type" claims = some (Json.str "access") := by
  refine ⟨_, rfl, ?_⟩
  exact (token_roundtrip_no_reserved_extras stEx hmacEx hmacEx_bytes 0 "alice" 60
    (by decide) [] (by simp)).1 _ rfl

set_option maxRecDepth 10000 in
/-- C1 counterexample to the claim as stated: an extra-claims map that
carries its own `sub` overrides the subject — the decoded `sub` is the
attacker-chosen value, not the subject passed to the issue call. -/
theorem token_roundtrip_counterexample :
    ∃ tok claims,
      create_access_token stEx hmacEx 0 "alice" (some 60)
        [("sub", Json.str "mallory")] = .ok tok ∧
      decode_token stEx hmacEx 0 tok = .ok claims ∧
      List.lookup "sub" claims = some (Json.str "mallory") := by
  exact ⟨_, _, rfl, rfl, rfl⟩

/-- C7: expiry.  Decoding any token whose payload carries an `exp`
claim with value at most the current time fails with the expiry
`TokenError`; in particular a token issued with a non-positive ttl and no
`exp` override is always rejected as expired. -/
theorem token_expiry_claim (st : Settings) (hm : List Nat → List Nat → List Nat)
    (hbytes : ∀ k m, ∀ b ∈ hm k m, b < 256) (now : Int) :
    (∀ payload tok e, _jwt_encode st hm payload = .ok tok →
      List.lookup "exp" payload = some (Json.num e) → e ≤ now →
      decode_token st hm now tok = .error (.tokenError "Token expired")) ∧
    (∀ s t extra tok, t ≤ 0 → (∀ e ∈ extra, e.1 ≠ "exp") →
      create_access_token st hm now s (some t) extra = .ok tok →
      decode_token st hm now tok = .error (.tokenError "Token expired")) := by
  have hgen : ∀ payload tok e, _jwt_encode st hm payload = .ok tok →
      List.lookup "exp" payload = some (Json.num e) → e ≤ now →
      decode_token st hm now tok = .error (.tokenError "Token expired") := by
    intro payload tok e henc hexp he
    have hdec := decode_token_jwt_encode st hm hbytes now payload tok henc
    rw [show pyGet payload "exp" = some (Json.num e) by rw [pyGet, hexp]] at hdec
    simp only [pyInt] at hdec
    rw [if_pos (by omega)] at hdec
    exact hdec
  refine ⟨hgen, ?_⟩
  intro s t extra tok hle hextra henc
  refine hgen (_build_token_payload st now s "access" (some t) extra) tok (now + t)
    henc ?_ (by omega)
  rw [show _build_token_payload st now s "access" (some t) extra =
      pyDictUpdate [("sub", Json.str s), ("type", Json.str "access"),
        ("iat", Json.num now), ("exp", Json.num (now + t))] extra from rfl,
    lookup_pyDictUpdate_ne extra _ "exp" (fun e he => (hextra e he).symm)]
  rfl

set_option maxRecDepth 10000 in
/-- C7 witness: a minimal payload whose `exp` is in the past decodes
to the expiry error. -/
theorem token_expiry_claim_witness :
    ∃ tok, _jwt_encode stEx hmacEx [("exp", Json.num 0)] = .ok tok ∧
      decode_token stEx hmacEx 5 tok = .error (.tokenError "Token expired") := by
  refine ⟨_, rfl, ?_⟩
  exact (token_expiry_claim stEx hmacEx hmacEx_bytes 5).1 [("exp", Json.num 0)] _ 0 rfl
    rfl (by omega)

/-- C3: the uniform-failure claim is false in the code: a token whose
third dot-segment is malformed base64 (here `"a.b.c"`, whose signature
segment has length 1 modulo 4) makes `decode_token` raise `binascii.Error`
from the call at `security.py:118`, which sits outside the `try` block —
not the uniform `TokenError`. -/
theorem decode_token_uncaught_binascii (st : Settings)
    (hm : List Nat → List Nat → List Nat) (now : Int) :
    decode_token st hm now "a.b.c" = .error PyErr.binasciiError := rfl

theorem natChars_iterations : String.mk (natChars pwdIterations) = "100000" := by decide

theorem splitCharsN_cons (sep : Char) (n : Nat) (a b : List Char) (ha : sep ∉ a) :
    splitCharsN sep (n + 1) (a ++ sep :: b) = a :: splitCharsN sep n b := by
  rw [splitCharsN, takeWhile_append_sep sep a b ha, dropWhile_append_sep sep a b ha]

/-- C2: password round trip.  Hashing then verifying the same password
succeeds; a different password whose derived key differs (PBKDF2
collision-freedom, an assumption about the external primitive) fails. -/
theorem password_roundtrip (pbkdf2 : List Nat → List Nat → Int → List Nat)
    (hpb : ∀ pw s i, ∀ b ∈ pbkdf2 pw s i, b < 256)
    (p p2 : String) (salt : List Nat) (hs : ∀ b ∈ salt, b < 256) :
    verify_password pbkdf2 p (hash_password pbkdf2 p salt) = true ∧
    (pbkdf2 (utf8Encode p2) salt (pwdIterations : Int) ≠
        pbkdf2 (utf8Encode p) salt (pwdIterations : Int) →
      verify_password pbkdf2 p2 (hash_password pbkdf2 p salt) = false) := by
  have hdata : (hash_password pbkdf2 p salt).data =
      ("pbkdf2_sha256").data ++ '$' :: (("100000").data ++ '$' ::
        ((b64UrlEncode salt).data ++ '$' ::
          (b64UrlEncode (pbkdf2 (utf8Encode p) salt (pwdIterations : Int))).data)) := by
    rw [show hash_password pbkdf2 p salt = pwdAlgorithmTag ++ "$" ++
      String.mk (natChars pwdIterations) ++ "$" ++ b64UrlEncode salt ++ "$" ++
      b64UrlEncode (pbkdf2 (utf8Encode p) salt (pwdIterations : Int)) from rfl,
      natChars_iterations,
      show pwdAlgorithmTag = "pbkdf2_sha256" from rfl]
    simp [data_append]
  have hsplit : splitCharsN '$' 3 (hash_password pbkdf2 p salt).data =
      [("pbkdf2_sha256").data, ("100000").data, (b64UrlEncode salt).data,
        (b64UrlEncode (pbkdf2 (utf8Encode p) salt (pwdIterations : Int))).data] := by
    rw [hdata, splitCharsN_cons '$' 2 _ _ (by decide),
      splitCharsN_cons '$' 1 _ _ (by decide),
      splitCharsN_cons '$' 0 ((b64UrlEncode salt).data) _ (fun hc =>
        (b64EncodeChars_facts salt hs '$' hc).2.2 rfl)]
    rfl
  have hverify : ∀ q : String,
      verify_password pbkdf2 q (hash_password pbkdf2 p salt) =
        (pbkdf2 (utf8Encode q) salt (pwdIterations : Int) ==
          pbkdf2 (utf8Encode p) salt (pwdIterations : Int)) := by
    intro q
    unfold verify_password
    rw [hsplit]
    simp only []
    rw [if_neg (by decide)]
    rw [show pyIntParse (String.mk ("100000").data) = some ((pwdIterations : Nat) : Int)
      from by decide]
    rw [b64urlDecode_b64UrlEncode salt hs,
      b64urlDecode_b64UrlEncode _ (hpb (utf8Encode p) salt (pwdIterations : Int))]
  constructor
  · rw [hverify p]
    exact beq_self_eq_true _
  · intro hdiff
    rw [hverify p2]
    exact beq_eq_false_iff_ne.mpr hdiff

/-- C2 witness: the round trip at a concrete password, salt and
key-derivation function. -/
theorem password_roundtrip_witness :
    verify_password pbkdf2Ex "a" (hash_password pbkdf2Ex "a" [1]) = true ∧
    verify_password pbkdf2Ex "b" (hash_password pbkdf2Ex "a" [1]) = false := by
  refine ⟨(password_roundtrip pbkdf2Ex pbkdf2Ex_bytes "a" "b" [1] (by decide)).1, ?_⟩
  exact (password_roundtrip pbkdf2Ex pbkdf2Ex_bytes "a" "b" [1] (by decide)).2 (by decide)

/-- C4 (amended): `validate_metadata` with one optional text field and
`None` metadata returns `None`; with an empty field list and the **empty
map** it returns the empty map, not `None` — the provided-but-empty input
is distinguished from the absent one. -/
theorem validate_null_vs_empty (dateOk tsOk : String → Bool) :
    validate_metadata dateOk tsOk [optTextField] none = .ok none ∧
    validate_metadata dateOk tsOk [] (some []) = .ok (some []) := ⟨rfl, rfl⟩

/-- C4 counterexample to the claim as stated: `validate(fields=[],
metadata={})` returns the empty map, not `None` (`provided` is true, so the
`None` short-circuit at `metadata.py:152` is skipped). -/
theorem validate_empty_map_counterexample :
    validate_metadata (fun _ => true) (fun _ => true) [] (some []) =
      .ok (some []) := rfl

/-- C5: completeness of validation errors.  A document that violates
required-ness on field `A` (absent or null value) and fails the per-field
check on a distinct field `B` is rejected with an error list containing an
entry for `A` ("Field is required") and the entry for `B` — all violations
are collected. -/
theorem validate_errors_both (dateOk tsOk : String → Bool)
    (fds : List FieldDefinition) (mv : List (String × MValue))
    (hnd : (fds.map FieldDefinition.name).Nodup)
    (A B : FieldDefinition) (hA : A ∈ fds) (hB : B ∈ fds) (_hAB : A.name ≠ B.name)
    (hAreq : A.is_required = true)
    (hAmiss : List.lookup A.name (pyDictOf mv) = none ∨
      List.lookup A.name (pyDictOf mv) = some MValue.null)
    (msgB : String)
    (hBerr : checkFieldValue dateOk tsOk B (List.lookup B.name (pyDictOf mv)) =
      .error msgB) :
    ∃ errs, validate_metadata dateOk tsOk fds (some mv) =
      .error ⟨"Metadata validation failed", errs⟩ ∧
      (A.name, "Field is required") ∈ errs ∧ (B.name, msgB) ∈ errs := by
  have hAerr : checkFieldValue dateOk tsOk A (List.lookup A.name (pyDictOf mv)) =
      .error "Field is required" := by
    rcases hAmiss with hm | hm
    · rw [hm, cfv_none, if_pos hAreq]
    · rw [hm, cfv_null, if_pos hAreq]
  obtain ⟨errs, hval, hmemA⟩ :=
    validate_error_complete dateOk tsOk fds mv hnd A hA "Field is required" hAerr
  obtain ⟨errs2, hval2, hmemB⟩ :=
    validate_error_complete dateOk tsOk fds mv hnd B hB msgB hBerr
  rw [hval] at hval2
  have heq : errs = errs2 := by
    rw [Except.error.injEq, MetadataValidationError.mk.injEq] at hval2
    exact hval2.2
  exact ⟨errs, hval, hmemA, heq ▸ hmemB⟩

/-- C5 witness: a required text field left absent and a checkbox field
given a string are reported together. -/
theorem validate_errors_both_witness :
    ∃ errs, validate_metadata (fun _ => true) (fun _ => true) [fieldAEx, fieldBEx]
      (some [("Signed", MValue.strv "yes")]) =
      .error ⟨"Metadata validation failed", errs⟩ ∧
      ("Artist", "Field is required") ∈ errs ∧
      ("Signed", "Value must be true or false") ∈ errs := by
  exact validate_errors_both (fun _ => true) (fun _ => true) [fieldAEx, fieldBEx]
    [("Signed", MValue.strv "yes")] (by decide) fieldAEx fieldBEx (by simp)
    (by simp) (by decide) rfl (Or.inl rfl) "Value must be true or false" rfl

/-- C6 witness: re-validating a normalized text value (stripping is
idempotent) returns it unchanged. -/
theorem validate_metadata_idem_witness :
    validate_metadata (fun _ => true) (fun _ => true) [optTextField]
      (some [("Notes", MValue.strv "hi")]) =
      .ok (some [("Notes", MValue.strv "hi")]) :=
  validate_metadata_idem (fun _ => true) (fun _ => true) [optTextField]
    (some [("Notes", MValue.strv " hi ")]) (some [("Notes", MValue.strv "hi")]) rfl

/-- C8: filter parsing.  A token without `=` is rejected with the
format error; a blank left-hand side is rejected; an unknown field name is
rejected naming the field; and for a select field with options
`[Excellent, Good]`, `"Condition=Bad"` fails with a message enumerating
the allowed values. -/
theorem filter_parse_claim (pyFloat : String → Option Int) (dateOk tsOk : String → Bool)
    (fbn : List (String × FieldDefinition)) :
    (∀ t : String, '=' ∉ t.data →
      _parse_filter_token pyFloat dateOk tsOk fbn t =
        .error "Filter must be in the format \x27Field=Value\x27") ∧
    (∀ n v, '=' ∉ n → pyStrip (String.mk n) = "" →
      _parse_filter_token pyFloat dateOk tsOk fbn (String.mk (n ++ '=' :: v)) =
        .error "Filter field name cannot be blank") ∧
    (∀ n v, '=' ∉ n → ¬ pyStrip (String.mk n) = "" →
      List.lookup (pyStrip (String.mk n)) fbn = none →
      _parse_filter_token pyFloat dateOk tsOk fbn (String.mk (n ++ '=' :: v)) =
        .error ("Unknown metadata field \x27" ++ pyStrip (String.mk n) ++ "\x27")) ∧
    _parse_filter_token pyFloat dateOk tsOk condFields "Condition=Bad" =
      .error "Filter value must be one of: Excellent, Good" := by
  refine ⟨fun t ht => filter_no_equals pyFloat dateOk tsOk fbn t ht,
    fun n v hn hb => filter_blank_name pyFloat dateOk tsOk fbn n v hn hb,
    fun n v hn hb hlk => filter_unknown_field pyFloat dateOk tsOk fbn n v hn hb hlk,
    ?_⟩
  rfl

/-- C8 witness: the three rejection rules at concrete tokens. -/
theorem filter_parse_claim_witness :
    _parse_filter_token (fun _ => none) (fun _ => true) (fun _ => true) condFields
      "ConditionBad" = .error "Filter must be in the format \x27Field=Value\x27" ∧
    _parse_filter_token (fun _ => none) (fun _ => true) (fun _ => true) condFields
      (String.mk ((" ").data ++ '=' :: ("x").data)) =
      .error "Filter field name cannot be blank" ∧
    _parse_filter_token (fun _ => none) (fun _ => true) (fun _ => true) condFields
      (String.mk (("Era").data ++ '=' :: ("x").data)) =
      .error ("Unknown metadata field \x27" ++ pyStrip (String.mk ("Era").data) ++ "\x27") := by
  refine ⟨(filter_parse_claim (fun _ => none) (fun _ => true) (fun _ => true)
      condFields).1 "ConditionBad" (by decide),
    (filter_parse_claim (fun _ => none) (fun _ => true) (fun _ => true)
      condFields).2.1 (" ").data ("x").data (by decide) (by decide),
    (filter_parse_claim (fun _ => none) (fun _ => true) (fun _ => true)
      condFields).2.2.1 ("Era").data ("x").data (by decide) (by decide) rfl⟩

/-- C9: normalized-output invariant.  When `validate_metadata` succeeds
with a map, every key names a supplied field definition and no value is
null. -/
theorem validate_output_invariant (dateOk tsOk : String → Bool)
    (fds : List FieldDefinition) (md : Option (List (String × MValue)))
    (m : List (String × MValue))
    (h : validate_metadata dateOk tsOk fds md = .ok (some m)) :
    ∀ x ∈ m, (∃ f ∈ fds, f.name = x.1) ∧ x.2 ≠ MValue.null := by
  obtain ⟨mv, rfl⟩ := validate_ok_some_shape dateOk tsOk fds md m h
  exact norm_entry_inv dateOk tsOk mv fds

/-- C9 witness: the invariant at a concrete successful validation. -/
theorem validate_output_invariant_witness :
    (∃ f ∈ [optTextField], f.name = "Notes") ∧ MValue.strv "hi" ≠ MValue.null :=
  validate_output_invariant (fun _ => true) (fun _ => true) [optTextField]
    (some [("Notes", MValue.strv "hi")]) [("Notes", MValue.strv "hi")] rfl
    ("Notes", MValue.strv "hi") (by simp)

/-- C10: the algorithm-tag gate.  Whenever the first `$`-delimited
field of the stored credential is not `pbkdf2_sha256`, `verify_password`
returns false for every key-derivation function — no derived key can make
it verify. -/
theorem verify_password_algorithm_gate (hashed : String)
    (halg : String.mk ((splitCharsN '$' 3 hashed.data).headD []) ≠ pwdAlgorithmTag) :
    ∀ (pbkdf2 : List Nat → List Nat → Int → List Nat) (plain : String),
      verify_password pbkdf2 plain hashed = false := by
  intro pb plain
  unfold verify_password
  rcases hsp : splitCharsN '$' 3 hashed.data with - | ⟨a, - | ⟨b, - | ⟨c, - | ⟨d, - | ⟨e, rest⟩⟩⟩⟩⟩
  · rfl
  · rfl
  · rfl
  · rfl
  · rw [hsp] at halg
    simp only [List.headD] at halg
    simp only []
    rw [if_pos halg]
  · rfl

/-- C10 witness: an `md5`-tagged credential never verifies. -/
theorem verify_password_algorithm_gate_witness :
    verify_password (fun _ _ _ => []) "secret" "md5$1$AA$BB" = false :=
  verify_password_algorithm_gate "md5$1$AA$BB" (by decide) (fun _ _ _ => []) "secret"
